import Mathlib

/-!
Verification of the IRV tally engine `calculate_irv_winner` from `src/app.py`
(repository MisterSquishy/RankedChoice).

The Python function is embedded shallowly:

* Candidate identifiers are an arbitrary type `α` with decidable equality
  (the source uses Python strings, which are opaque comparable tokens).
* The input `rankings : Dict[str, List[str]]` is embedded as an association
  list `List (κ × List α)`; the source only ever uses `rankings.values()`,
  embedded as `List.map Prod.snd`.
* Python `set`/`Counter`/`dict` iteration is embedded as lists in first
  insertion order.  Every result of the function is independent of that
  order (at most one candidate can hold a strict majority, and `min`,
  set membership and set comprehension are order independent), so this is
  an observationally faithful refinement of Python's arbitrary set order.
* The two uses of the ambient random generator are passed explicitly:
  `sh` embeds `random.shuffle` (given the current round index and the list
  to permute) and `ch` embeds `random.choice` (on a non-empty list).
* The `while True:` loop is embedded with an explicit fuel argument.  The
  loop body raises after the 1001st round snapshot, so 1002 units of fuel
  always suffice; theorem `irvLoop_no_fuelOut` below proves the `fuelOut`
  sentinel unreachable from the entry point, making the embedding exact.
* The `raise Exception("IRV has entered an infinite loop")` statement and
  the `IndexError` raised by `ballot[0]` on an empty list are embedded as
  `Except.error` values.
* The majority test `count > total_votes / 2` uses Python float division in
  the source.  The embedding carries both semantics: `majorityFind` uses the
  exact rational comparison `2 * count > total_votes` that the repository
  documentation prescribes, and `pyMajorityFind` / `irvLoopFloat` /
  `calculate_irv_winner_float` model the source's float comparison exactly
  (IEEE binary64 round-to-nearest-even of `total_votes / 2`, see
  `floatHalfUnits`).  The two agree whenever `total_votes ≤ 2 ^ 53`
  (`pyMajorityFind_eq_majorityFind`) and diverge in both directions above
  that bound; the claims whose truth depends on the borderline behaviour are
  settled against the float embedding.
-/

set_option linter.unusedSectionVars false

namespace RankedChoice

variable {α : Type} {κ : Type} [DecidableEq α]

/-- Errors the Python function can raise: the explicit
`Exception("IRV has entered an infinite loop")`, the `IndexError` produced by
`ballot[0]` on an empty ballot in the exhaustion tie-break, and a sentinel for
fuel exhaustion of the embedded loop (proved unreachable). -/
inductive IRVErr : Type where
  | infiniteLoop : IRVErr
  | indexError : IRVErr
  | fuelOut : IRVErr
  deriving DecidableEq

/-- Append an element to an accumulator if it is not already present: the
effect of Python's `set.add` on a set represented in insertion order. -/
def insertNew (acc : List α) (c : α) : List α :=
  if c ∈ acc then acc else acc ++ [c]

/-- Embeds the universe construction
`for row in ballots: for vote in row: all_candidates.add(vote)`:
all distinct candidates still appearing anywhere in any ballot, in first
occurrence order. -/
def allCandidates (ballots : List (List α)) : List α :=
  ballots.foldl (fun acc row => row.foldl insertNew acc) []

/-- Embeds `Counter({candidate: 0 for candidate in all_candidates})` followed
by `counts[ballot[0]] += 1`: increment the first entry with the given key, or
append a fresh entry (as `Counter.__setitem__` would) if the key is missing. -/
def incr : List (α × Nat) → α → List (α × Nat)
  | [], c => [(c, 1)]
  | (a, n) :: rest, c =>
    if a = c then (a, n + 1) :: rest else (a, n) :: incr rest c

/-- Embeds the first-choice count construction of the source: a `Counter`
initialised with a zero entry for every candidate in the current universe,
then incremented at `ballot[0]` for every non-empty ballot. -/
def countVotes (ballots : List (List α)) : List (α × Nat) :=
  ballots.foldl
    (fun acc b =>
      match b with
      | [] => acc
      | v :: _ => incr acc v)
    ((allCandidates ballots).map (fun c => (c, 0)))

/-- Embeds `total_votes = sum(counts.values())`. -/
def totalVotes (ballots : List (List α)) : Nat :=
  ((countVotes ballots).map Prod.snd).sum

/-- Embeds the majority scan
`for candidate, count in counts.items(): if count > total_votes / 2: return candidate`
as a first-match search over the counter entries. -/
def majorityFind (ballots : List (List α)) : Option (α × Nat) :=
  (countVotes ballots).find? (fun p => decide (2 * p.2 > totalVotes ballots))

/-- Minimum of a list of naturals, as Python's `min` on a non-empty list (the
default for `[]` is never used: the source only calls `min` after
establishing `total_votes > 0`, so the counter is non-empty). -/
def listMin : List Nat → Nat
  | [] => 0
  | x :: xs => xs.foldl min x

/-- Embeds `min_count = min(counts.values())`. -/
def minVotes (ballots : List (List α)) : Nat :=
  listMin ((countVotes ballots).map Prod.snd)

/-- Embeds
`to_eliminate = {c for c, count in counts.items() if count == min_count}`. -/
def toEliminate (ballots : List (List α)) : List α :=
  ((countVotes ballots).filter (fun p => decide (p.2 = minVotes ballots))).map Prod.fst

/-- Embeds the elimination pass
`for ballot in ballots: ballot[:] = [c for c in ballot if c not in to_eliminate]`. -/
def eliminateFrom (ballots : List (List α)) : List (List α) :=
  ballots.map (fun b => b.filter (fun c => decide (c ∉ toEliminate ballots)))

/-- Embeds the set comprehension `{ballot[0] for ballot in original_ballots}`
on a list of ballots already checked to be non-empty: the distinct original
first choices in first occurrence order. -/
def firstChoices (origs : List (List α)) : List α :=
  origs.foldl
    (fun acc b =>
      match b with
      | [] => acc
      | c :: _ => insertNew acc c)
    []

/-- Embeds the `while True:` loop of `calculate_irv_winner`.  `sh` embeds
`random.shuffle` (fed the current round index so each round may shuffle
differently), `ch` embeds `random.choice`, `origs` is the value of
`list(rankings.values())` re-read by the exhaustion branch, `fuel` bounds the
number of iterations (1002 always suffices, see `irvLoop_no_fuelOut`). -/
def irvLoop (sh : Nat → List (List α) → List (List α)) (ch : List α → α)
    (origs : List (List α)) :
    Nat → List (List α) → List (List (List α)) →
      Except IRVErr (Option α × List (List (List α)))
  | 0, _, _ => .error .fuelOut
  | fuel + 1, ballots, rounds =>
    if totalVotes ballots = 0 then
      -- `{ballot[0] for ballot in original_ballots}` raises IndexError
      -- as soon as it meets an empty original ballot.
      if origs.any List.isEmpty then .error .indexError
      else .ok (some (ch (firstChoices origs)), rounds)
    else
      match majorityFind ballots with
      | some p => .ok (some p.1, rounds)
      | none =>
        let ballots' := eliminateFrom ballots
        let rounds' := rounds ++ [sh rounds.length ballots']
        if rounds'.length > 1000 then .error .infiniteLoop
        else irvLoop sh ch origs fuel ballots' rounds'

/-- Embedding of `calculate_irv_winner` (src/app.py lines 557-616).  The
`copy.deepcopy(list(rankings.values()))` is value copying, which is the
identity in a pure embedding (the heap model below treats object identity
explicitly); the empty check and the loop follow the source line by line. -/
def calculate_irv_winner (sh : Nat → List (List α) → List (List α))
    (ch : List α → α) (rankings : List (κ × List α)) :
    Except IRVErr (Option α × List (List (List α))) :=
  let ballots := rankings.map Prod.snd
  if ballots.length = 0 then .ok (none, [])
  else irvLoop sh ch (rankings.map Prod.snd) 1002 ballots []

/-- Number of ballots whose first remaining entry is `c`: the specification
value of the counter entry for `c` built by the source. -/
def countFirst (ballots : List (List α)) (c : α) : Nat :=
  ballots.countP (fun b => decide (b.head? = some c))

/-- Identity shuffle: one concrete resolution of the random source. -/
def idShuffle : Nat → List (List α) → List (List α) := fun _ l => l

/-- Head-picking choice function: one concrete resolution of
`random.choice`. -/
def headChoice [Inhabited α] : List α → α := fun l => l.headD default

/-- Step counter with the same control flow as `irvLoop`: it returns the
number of elimination steps performed instead of accumulating snapshots (`n`
plays the role of `rounds.length`). -/
def irvSteps (origs : List (List α)) :
    Nat → List (List α) → Nat → Except IRVErr Nat
  | 0, _, _ => .error .fuelOut
  | fuel + 1, ballots, n =>
    if totalVotes ballots = 0 then
      if origs.any List.isEmpty then .error .indexError else .ok n
    else
      match majorityFind ballots with
      | some _ => .ok n
      | none =>
        if n + 1 > 1000 then .error .infiniteLoop
        else irvSteps origs fuel (eliminateFrom ballots) (n + 1)

/-- Number of elimination steps a run of `calculate_irv_winner` performs on
the given ballot set (with the same error outcomes as the run itself). -/
def countElimSteps (rankings : List (κ × List α)) : Except IRVErr Nat :=
  let ballots := rankings.map Prod.snd
  if ballots.length = 0 then .ok 0
  else irvSteps (rankings.map Prod.snd) 1002 ballots 0

/-- Reversing shuffle: another concrete resolution of the random source. -/
def revShuffle : Nat → List (List α) → List (List α) := fun _ l => l.reverse

/-!
Heap model for the mutation claim.  Python ballots are list objects on a
heap; the heap is a list of cells indexed by address, a missing address reads
as `[]`.  `rankings` maps each voter to the address of their ballot object.
`copy.deepcopy(list(rankings.values()))` allocates fresh cells at the end of
the heap holding copies of the callers' ballot values (deepcopy also
preserves internal sharing among the copied objects; since the loop filters
aliased copies identically, modelling the copies as separate fresh cells is
observationally equivalent), and the in-place update
`ballot[:] = [c for c in ballot if c not in to_eliminate]` becomes a store to
the ballot's own cell.  `copy.deepcopy(ballots)` before the shuffle, and the
re-copy of the original ballots in the exhaustion branch, again allocate at
the end of the heap.
-/

/-- Read the list object stored at address `a`. -/
def readCell (h : List (List α)) (a : Nat) : List α := h.getD a []

/-- Embeds the in-place elimination pass: for each ballot address, store the
filtered value back into the ballot's cell. -/
def heapElim (elim : List α) (h : List (List α)) (bAddrs : List Nat) :
    List (List α) :=
  bAddrs.foldl
    (fun hh a =>
      hh.set a ((readCell hh a).filter (fun c => decide (c ∉ elim)))) h

/-- The loop of `calculate_irv_winner` over the heap model: `h` is the heap,
`bAddrs` the addresses of the working (deep-copied) ballots, `origAddrs` the
addresses of the callers' original ballot objects re-read by the exhaustion
branch.  Returns the result together with the final heap. -/
def irvLoopHeap (sh : Nat → List (List α) → List (List α)) (ch : List α → α)
    (origAddrs : List Nat) :
    Nat → List (List α) → List Nat → List (List (List α)) →
      Except IRVErr (Option α × List (List (List α))) × List (List α)
  | 0, h, _, _ => (.error .fuelOut, h)
  | fuel + 1, h, bAddrs, rounds =>
    let ballots := bAddrs.map (readCell h)
    if totalVotes ballots = 0 then
      let origVals := origAddrs.map (readCell h)
      if origVals.any List.isEmpty then (.error .indexError, h ++ origVals)
      else (.ok (some (ch (firstChoices origVals)), rounds), h ++ origVals)
    else
      match majorityFind ballots with
      | some p => (.ok (some p.1, rounds), h)
      | none =>
        let h' := heapElim (toEliminate ballots) h bAddrs
        let snap := bAddrs.map (readCell h')
        let rounds' := rounds ++ [sh rounds.length snap]
        if rounds'.length > 1000 then (.error .infiniteLoop, h' ++ snap)
        else irvLoopHeap sh ch origAddrs fuel (h' ++ snap) bAddrs rounds'

/-- Heap-model embedding of `calculate_irv_winner`: the deep copy of
`list(rankings.values())` allocates fresh cells past the end of the caller's
heap, and the loop works on those fresh addresses only. -/
def calculate_irv_winner_heap (sh : Nat → List (List α) → List (List α))
    (ch : List α → α) (rankings : List (κ × Nat)) (h0 : List (List α)) :
    Except IRVErr (Option α × List (List (List α))) × List (List α) :=
  let origAddrs := rankings.map Prod.snd
  let h1 := h0 ++ origAddrs.map (readCell h0)
  let bAddrs := List.range' h0.length origAddrs.length
  if bAddrs.length = 0 then (.ok (none, []), h1)
  else irvLoopHeap sh ch origAddrs 1002 h1 bAddrs []

/-!
A concrete family of elections that reaches the round ceiling.  With
candidates `0, …, k-1` and `i + 1` bullet ballots for candidate `i`, every
round has a unique minimum (the smallest surviving candidate) and no strict
majority while at least three candidates survive, so the loop eliminates
exactly one candidate per round.  For `k = 1003` this yields 1001 elimination
rounds and the `len(rounds) > 1000` guard raises.  `bigState r n` is the
ballot list at the start of round `r`, with `n` surviving candidates
`r, …, r + n - 1`: the ballots of the eliminated candidates `0, …, r - 1`
(`triNum r` of them) have exhausted to `[]`, in place.
-/

/-- Triangular number: `0 + 1 + ... + r`, the number of exhausted bullet
ballots after the first `r` candidates are eliminated. -/
def triNum : Nat → Nat
  | 0 => 0
  | r + 1 => triNum r + (r + 1)

/-- Bullet ballots of candidates `r, …, r + n - 1`, with `i + 1` copies of
the singleton ballot `[i]`. -/
def chainBallots (r n : Nat) : List (List Nat) :=
  (List.range' r n).flatMap (fun i => List.replicate (i + 1) [i])

/-- Ballot state of the ceiling-tripping election at the start of round `r`
(counting rounds from 0), with `n` surviving candidates. -/
def bigState (r n : Nat) : List (List Nat) :=
  List.replicate (triNum r) [] ++ chainBallots r n

/-- The ceiling-tripping election: `triNum 1003 = 503506` voters, candidate
`i` ranked first by `i + 1` of them, no further preferences. -/
def bigRankings : List (Nat × List Nat) := (bigState 0 1003).enum

/-- Fueled binary logarithm: `log2F fuel n` is the floor of the base-2
logarithm of `n` when `n < 2 ^ fuel` (structural recursion so that the
kernel can evaluate it on literals). -/
def log2F : Nat → Nat → Nat
  | 0, _ => 0
  | fuel + 1, n => if n ≥ 2 then log2F fuel (n / 2) + 1 else 0

/-- The exact value of the Python float `n / 2` (an int divided by 2 with
true division), expressed in half-units: `floatHalfUnits n / 2` is the
rational value of that IEEE binary64 double.  For `n < 2 ^ 53` the quotient
is representable and the division is exact; otherwise the real value `n / 2`
lies in the binade `[2 ^ (b - 1), 2 ^ b)` with `b = ⌊log₂ n⌋`, where doubles
are spaced `2 ^ (b - 53)` apart (`S = 2 ^ (b - 52)` in half-units), and the
quotient is rounded to the nearest representable value, ties to the even
mantissa.  Faithful for every `n` below `2 ^ 1024`, past which CPython's
int/int division raises OverflowError (the fuel 2000 covers that whole
range). -/
def floatHalfUnits (n : Nat) : Nat :=
  if n < 2 ^ 53 then n
  else
    let b := log2F 2000 n
    let S := 2 ^ (b - 52)
    let q := n / S
    let r := n % S
    if 2 * r < S then q * S
    else if S < 2 * r then (q + 1) * S
    else if q % 2 = 0 then q * S else (q + 1) * S

/-- The source's majority test `count > total_votes / 2` with Python float
semantics: CPython compares the int `count` with the double `total / 2`
exactly, so the test is the exact integer comparison against the rounded
half, in half-units. -/
def pyMajGt (count total : Nat) : Bool :=
  decide (2 * count > floatHalfUnits total)

/-- The majority scan of the source under Python float semantics: first
counter entry whose count passes `count > total_votes / 2`. -/
def pyMajorityFind (ballots : List (List α)) : Option (α × Nat) :=
  (countVotes ballots).find? (fun p => pyMajGt p.2 (totalVotes ballots))

/-- The loop of `calculate_irv_winner` with the source's float majority
test (`pyMajorityFind`); identical to `irvLoop` in every other respect. -/
def irvLoopFloat (sh : Nat → List (List α) → List (List α)) (ch : List α → α)
    (origs : List (List α)) :
    Nat → List (List α) → List (List (List α)) →
      Except IRVErr (Option α × List (List (List α)))
  | 0, _, _ => .error .fuelOut
  | fuel + 1, ballots, rounds =>
    if totalVotes ballots = 0 then
      if origs.any List.isEmpty then .error .indexError
      else .ok (some (ch (firstChoices origs)), rounds)
    else
      match pyMajorityFind ballots with
      | some p => .ok (some p.1, rounds)
      | none =>
        let ballots' := eliminateFrom ballots
        let rounds' := rounds ++ [sh rounds.length ballots']
        if rounds'.length > 1000 then .error .infiniteLoop
        else irvLoopFloat sh ch origs fuel ballots' rounds'

/-- Embedding of `calculate_irv_winner` with the source's float majority
test. -/
def calculate_irv_winner_float (sh : Nat → List (List α) → List (List α))
    (ch : List α → α) (rankings : List (κ × List α)) :
    Except IRVErr (Option α × List (List (List α))) :=
  let ballots := rankings.map Prod.snd
  if ballots.length = 0 then .ok (none, [])
  else irvLoopFloat sh ch (rankings.map Prod.snd) 1002 ballots []

/-- An election where candidate 0 holds an exact-rational strict majority
(`2 ^ 52 + 2` of `2 ^ 53 + 3` votes) that the float test misses:
`(2 ^ 53 + 3) / 2` rounds up to `4503599627370498.0`, which equals the
count. -/
def nearMajBallots : List (List Nat) :=
  List.replicate (2 ^ 52 + 2) [0] ++ List.replicate (2 ^ 52 + 1) [1]

/-- An election where both candidates hold exactly half of the
`2 ^ 54 + 2` votes, yet the float test passes: `(2 ^ 54 + 2) / 2` rounds
down to `9007199254740992.0`, below the count `2 ^ 53 + 1`. -/
def halfTieBallots : List (List Nat) :=
  List.replicate (2 ^ 53 + 1) [0] ++ List.replicate (2 ^ 53 + 1) [1]

lemma headChoice_mem [Inhabited α] (l : List α) (h : l ≠ []) : headChoice l ∈ l := by
  cases l with
  | nil => exact absurd rfl h
  | cons a t => exact List.mem_cons_self a t

lemma mem_insertNew {acc : List α} {c a : α} :
    a ∈ insertNew acc c ↔ a ∈ acc ∨ a = c := by
  unfold insertNew
  split
  · rename_i hmem
    constructor
    · exact Or.inl
    · rintro (h | rfl)
      · exact h
      · exact hmem
  · simp

lemma insertNew_nodup {acc : List α} {c : α} (h : acc.Nodup) :
    (insertNew acc c).Nodup := by
  unfold insertNew
  split
  · exact h
  · rename_i hni
    simpa [List.nodup_append] using ⟨h, hni⟩

lemma mem_foldl_insertNew {row acc : List α} {a : α} :
    a ∈ row.foldl insertNew acc ↔ a ∈ acc ∨ a ∈ row := by
  induction row generalizing acc with
  | nil => simp
  | cons x xs ih =>
    simp only [List.foldl_cons, ih, mem_insertNew, List.mem_cons]
    tauto

lemma foldl_insertNew_nodup {row acc : List α} (h : acc.Nodup) :
    (row.foldl insertNew acc).Nodup := by
  induction row generalizing acc with
  | nil => exact h
  | cons x xs ih => exact ih (insertNew_nodup h)

lemma mem_allCandidates_foldl {ballots : List (List α)} {acc : List α} {a : α} :
    a ∈ ballots.foldl (fun acc row => row.foldl insertNew acc) acc ↔
      a ∈ acc ∨ ∃ b ∈ ballots, a ∈ b := by
  induction ballots generalizing acc with
  | nil => simp
  | cons x xs ih =>
    simp only [List.foldl_cons, ih, mem_foldl_insertNew, List.mem_cons]
    constructor
    · rintro ((h | h) | ⟨b, hb, hab⟩)
      · exact Or.inl h
      · exact Or.inr ⟨x, Or.inl rfl, h⟩
      · exact Or.inr ⟨b, Or.inr hb, hab⟩
    · rintro (h | ⟨b, (rfl | hb), hab⟩)
      · exact Or.inl (Or.inl h)
      · exact Or.inl (Or.inr hab)
      · exact Or.inr ⟨b, hb, hab⟩

lemma mem_allCandidates {ballots : List (List α)} {a : α} :
    a ∈ allCandidates ballots ↔ ∃ b ∈ ballots, a ∈ b := by
  unfold allCandidates
  simp [mem_allCandidates_foldl]

lemma allCandidates_nodup (ballots : List (List α)) :
    (allCandidates ballots).Nodup := by
  unfold allCandidates
  have : ∀ (bs : List (List α)) (acc : List α), acc.Nodup →
      (bs.foldl (fun acc row => row.foldl insertNew acc) acc).Nodup := by
    intro bs
    induction bs with
    | nil => intro acc h; exact h
    | cons x xs ih => intro acc h; exact ih _ (foldl_insertNew_nodup h)
  exact this ballots [] List.nodup_nil

lemma mem_firstChoices {origs : List (List α)} {a : α} :
    a ∈ firstChoices origs ↔ ∃ b ∈ origs, b.head? = some a := by
  unfold firstChoices
  have : ∀ (bs : List (List α)) (acc : List α),
      (a ∈ bs.foldl
        (fun acc b => match b with | [] => acc | c :: _ => insertNew acc c) acc ↔
        a ∈ acc ∨ ∃ b ∈ bs, b.head? = some a) := by
    intro bs
    induction bs with
    | nil => simp
    | cons x xs ih =>
      intro acc
      cases x with
      | nil =>
        simp only [List.foldl_cons, ih, List.mem_cons]
        constructor
        · rintro (h | ⟨b, hb, hh⟩)
          · exact Or.inl h
          · exact Or.inr ⟨b, Or.inr hb, hh⟩
        · rintro (h | ⟨b, (rfl | hb), hh⟩)
          · exact Or.inl h
          · simp at hh
          · exact Or.inr ⟨b, hb, hh⟩
      | cons c t =>
        simp only [List.foldl_cons, ih, mem_insertNew, List.mem_cons]
        constructor
        · rintro ((h | rfl) | ⟨b, hb, hh⟩)
          · exact Or.inl h
          · exact Or.inr ⟨a :: t, Or.inl rfl, rfl⟩
          · exact Or.inr ⟨b, Or.inr hb, hh⟩
        · rintro (h | ⟨b, (rfl | hb), hh⟩)
          · exact Or.inl (Or.inl h)
          · simp at hh
            exact Or.inl (Or.inr hh.symm)
          · exact Or.inr ⟨b, hb, hh⟩
  simp [this]

lemma map_eq_self_of_forall {β : Type} {l : List β} {f : β → β}
    (h : ∀ a ∈ l, f a = a) : l.map f = l := by
  induction l with
  | nil => rfl
  | cons a t ih =>
    simp only [List.map_cons, h a (List.mem_cons_self a t)]
    rw [ih (fun b hb => h b (List.mem_cons_of_mem a hb))]

lemma incr_of_mem {L : List (α × Nat)} {c : α}
    (hnd : (L.map Prod.fst).Nodup) (h : c ∈ L.map Prod.fst) :
    incr L c = L.map (fun p => if p.1 = c then (p.1, p.2 + 1) else p) := by
  induction L with
  | nil => simp at h
  | cons q rest ih =>
    obtain ⟨a, n⟩ := q
    simp only [List.map_cons, List.nodup_cons] at hnd
    by_cases hac : a = c
    · subst hac
      have hrest : ∀ p ∈ rest, (if p.1 = a then (p.1, p.2 + 1) else p) = p := by
        intro p hp
        have : p.1 ≠ a := by
          intro hpa
          exact hnd.1 (hpa ▸ List.mem_map_of_mem Prod.fst hp)
        simp [this]
      simp [incr, map_eq_self_of_forall hrest]
    · simp only [List.map_cons, List.mem_cons] at h
      rcases h with h | h
      · exact absurd h.symm hac
      · simp [incr, hac, ih hnd.2 h]

lemma map_fst_incr {L : List (α × Nat)} {c : α}
    (hnd : (L.map Prod.fst).Nodup) (h : c ∈ L.map Prod.fst) :
    (incr L c).map Prod.fst = L.map Prod.fst := by
  rw [incr_of_mem hnd h, List.map_map]
  apply List.map_congr_left
  intro p _
  by_cases hp : p.1 = c <;> simp [hp]

lemma countFirst_nil (c : α) : countFirst [] c = 0 := rfl

lemma countFirst_cons (b : List α) (bs : List (List α)) (c : α) :
    countFirst (b :: bs) c =
      countFirst bs c + if b.head? = some c then 1 else 0 := by
  unfold countFirst
  rw [List.countP_cons]
  simp

lemma countVotes_foldl (ballots : List (List α)) :
    ∀ L : List (α × Nat), (L.map Prod.fst).Nodup →
      (∀ b ∈ ballots, ∀ v, b.head? = some v → v ∈ L.map Prod.fst) →
      ballots.foldl
          (fun acc b => match b with | [] => acc | v :: _ => incr acc v) L =
        L.map (fun p => (p.1, p.2 + countFirst ballots p.1)) := by
  induction ballots with
  | nil =>
    intro L _ _
    simp [countFirst_nil]
  | cons b bs ih =>
    intro L hnd hheads
    cases b with
    | nil =>
      rw [List.foldl_cons]
      show bs.foldl _ L = _
      rw [ih L hnd (fun b hb => hheads b (List.mem_cons_of_mem _ hb))]
      apply List.map_congr_left
      intro p _
      simp [countFirst_cons]
    | cons v t =>
      rw [List.foldl_cons]
      show bs.foldl _ (incr L v) = _
      have hv : v ∈ L.map Prod.fst :=
        hheads (v :: t) (List.mem_cons_self _ _) v rfl
      have hkeys : (incr L v).map Prod.fst = L.map Prod.fst := map_fst_incr hnd hv
      rw [ih (incr L v) (hkeys ▸ hnd) (fun b hb w hw => by
        rw [hkeys]
        exact hheads b (List.mem_cons_of_mem _ hb) w hw)]
      rw [incr_of_mem hnd hv, List.map_map]
      apply List.map_congr_left
      intro p _
      by_cases hp : p.1 = v
      · simp [hp, countFirst_cons]
        omega
      · simp [hp, countFirst_cons, Ne.symm hp]

lemma countVotes_eq (ballots : List (List α)) :
    countVotes ballots =
      (allCandidates ballots).map (fun c => (c, countFirst ballots c)) := by
  unfold countVotes
  have hkeys0 :
      (((allCandidates ballots).map (fun c => (c, 0))).map Prod.fst) =
        allCandidates ballots := by
    rw [List.map_map]
    exact map_eq_self_of_forall (fun a _ => rfl)
  rw [countVotes_foldl ballots _
    (by rw [hkeys0]; exact allCandidates_nodup ballots)
    (fun b hb v hv => by
      rw [hkeys0]
      rw [mem_allCandidates]
      refine ⟨b, hb, ?_⟩
      cases b with
      | nil => simp at hv
      | cons x t => simp at hv; simp [hv])]
  rw [List.map_map]
  exact List.map_congr_left (fun c _ => by simp)

lemma totalVotes_eq (ballots : List (List α)) :
    totalVotes ballots =
      ((allCandidates ballots).map (countFirst ballots)).sum := by
  unfold totalVotes
  rw [countVotes_eq, List.map_map]
  rfl

lemma foldl_min_le_init (xs : List Nat) (a : Nat) : xs.foldl min a ≤ a := by
  induction xs generalizing a with
  | nil => exact le_refl a
  | cons x t ih => exact le_trans (ih (min a x)) (min_le_left a x)

lemma foldl_min_le_mem (xs : List Nat) (a : Nat) :
    ∀ x ∈ xs, xs.foldl min a ≤ x := by
  induction xs generalizing a with
  | nil => intro x hx; simp at hx
  | cons y t ih =>
    intro x hx
    rcases List.mem_cons.mp hx with rfl | hx
    · exact le_trans (foldl_min_le_init t (min a x)) (min_le_right a x)
    · exact ih (min a y) x hx

lemma foldl_min_mem (xs : List Nat) (a : Nat) : xs.foldl min a ∈ a :: xs := by
  induction xs generalizing a with
  | nil => simp
  | cons y t ih =>
    have h := ih (min a y)
    rw [List.foldl_cons]
    rcases List.mem_cons.mp h with h | h
    · rcases Nat.le_total a y with hle | hle
      · rw [h, Nat.min_eq_left hle]
        exact List.mem_cons_self _ _
      · rw [h, Nat.min_eq_right hle]
        exact List.mem_cons_of_mem _ (List.mem_cons_self _ _)
    · exact List.mem_cons_of_mem _ (List.mem_cons_of_mem _ h)

lemma listMin_mem {xs : List Nat} (h : xs ≠ []) : listMin xs ∈ xs := by
  cases xs with
  | nil => exact absurd rfl h
  | cons x t => exact foldl_min_mem t x

lemma listMin_le {xs : List Nat} {x : Nat} (h : x ∈ xs) : listMin xs ≤ x := by
  cases xs with
  | nil => simp at h
  | cons y t =>
    rcases List.mem_cons.mp h with rfl | h
    · exact foldl_min_le_init t x
    · exact foldl_min_le_mem t y x h

lemma mem_toEliminate {ballots : List (List α)} {c : α} :
    c ∈ toEliminate ballots ↔
      c ∈ allCandidates ballots ∧
        countFirst ballots c = minVotes ballots := by
  unfold toEliminate
  rw [countVotes_eq]
  simp only [List.mem_map, List.mem_filter, List.mem_map]
  constructor
  · rintro ⟨p, ⟨⟨d, hd, rfl⟩, hmin⟩, rfl⟩
    simp at hmin
    exact ⟨hd, hmin⟩
  · rintro ⟨hc, hmin⟩
    exact ⟨(c, countFirst ballots c), ⟨⟨c, hc, rfl⟩, by simp [hmin]⟩, rfl⟩

lemma countVotes_values (ballots : List (List α)) :
    (countVotes ballots).map Prod.snd =
      (allCandidates ballots).map (countFirst ballots) := by
  rw [countVotes_eq, List.map_map]
  rfl

lemma minVotes_eq_countFirst {ballots : List (List α)}
    (h : allCandidates ballots ≠ []) :
    ∃ c ∈ allCandidates ballots, countFirst ballots c = minVotes ballots := by
  have hne : ((countVotes ballots).map Prod.snd) ≠ [] := by
    rw [countVotes_values]
    simpa using h
  have hmem := listMin_mem hne
  conv at hmem => rw [countVotes_values]
  obtain ⟨c, hc, hval⟩ := List.mem_map.mp hmem
  refine ⟨c, hc, ?_⟩
  unfold minVotes
  rw [countVotes_values]
  exact hval

lemma toEliminate_ne_nil {ballots : List (List α)}
    (h : allCandidates ballots ≠ []) : toEliminate ballots ≠ [] := by
  obtain ⟨c, hc, hval⟩ := minVotes_eq_countFirst h
  intro hnil
  have : c ∈ toEliminate ballots := mem_toEliminate.mpr ⟨hc, hval⟩
  rw [hnil] at this
  simp at this

lemma minVotes_le {ballots : List (List α)} {c : α}
    (h : c ∈ allCandidates ballots) :
    minVotes ballots ≤ countFirst ballots c := by
  apply listMin_le
  rw [countVotes_eq, List.map_map]
  exact List.mem_map.mpr ⟨c, h, rfl⟩

lemma sum_map_ite_eq {U : List α} (hnd : U.Nodup) {v : α} (hv : v ∈ U) :
    (U.map (fun c => if v = c then 1 else 0)).sum = 1 := by
  induction U with
  | nil => simp at hv
  | cons a t ih =>
    rw [List.nodup_cons] at hnd
    rcases List.mem_cons.mp hv with rfl | hv
    · have : (t.map (fun c => if v = c then 1 else 0)) = t.map (fun _ => 0) := by
        apply List.map_congr_left
        intro c hc
        have : v ≠ c := fun h => hnd.1 (h ▸ hc)
        simp [this]
      simp [this]
    · have hav : a ≠ v := fun h => hnd.1 (h ▸ hv)
      simp [Ne.symm hav, ih hnd.2 hv]

lemma sum_countFirst {U : List α} (hnd : U.Nodup) :
    ∀ ballots : List (List α),
      (∀ b ∈ ballots, ∀ v, b.head? = some v → v ∈ U) →
      (U.map (countFirst ballots)).sum =
        ballots.countP (fun b => decide b.head?.isSome) := by
  intro ballots
  induction ballots with
  | nil =>
    intro _
    have : U.map (countFirst ([] : List (List α))) = U.map (fun _ => 0) := by
      apply List.map_congr_left
      intro c _
      exact countFirst_nil c
    simp [this]
  | cons b bs ih =>
    intro hheads
    have hsplit : U.map (countFirst (b :: bs)) =
        U.map (fun c => countFirst bs c + if b.head? = some c then 1 else 0) := by
      apply List.map_congr_left
      intro c _
      exact countFirst_cons b bs c
    rw [hsplit, List.sum_map_add,
      ih (fun x hx => hheads x (List.mem_cons_of_mem _ hx))]
    rw [List.countP_cons]
    cases hb : b.head? with
    | none =>
      have : (U.map (fun c => if b.head? = some c then 1 else 0)) =
          U.map (fun _ => 0) := by
        apply List.map_congr_left
        intro c _
        simp [hb]
      simp [this, hb]
    | some v =>
      have hvU : v ∈ U := hheads b (List.mem_cons_self _ _) v hb
      have heq : (U.map (fun c => if some v = some c then 1 else 0)) =
          U.map (fun c => if v = c then 1 else 0) := by
        apply List.map_congr_left
        intro c _
        simp
      rw [heq, sum_map_ite_eq hnd hvU]
      simp

lemma totalVotes_eq_countP (ballots : List (List α)) :
    totalVotes ballots = ballots.countP (fun b => decide b.head?.isSome) := by
  rw [totalVotes_eq]
  exact sum_countFirst (allCandidates_nodup ballots) ballots
    (fun b hb v hv => by
      rw [mem_allCandidates]
      refine ⟨b, hb, ?_⟩
      cases b with
      | nil => simp at hv
      | cons x t => simp at hv; simp [hv])

lemma countP_pair_le {β : Type} (l : List β) (p q r : β → Bool)
    (hpq : ∀ x, p x → q x → False)
    (hpr : ∀ x, p x → r x) (hqr : ∀ x, q x → r x) :
    l.countP p + l.countP q ≤ l.countP r := by
  induction l with
  | nil => simp
  | cons a t ih =>
    rw [List.countP_cons, List.countP_cons, List.countP_cons]
    have h1 : (if p a then 1 else 0) + (if q a then 1 else 0) ≤
        (if r a then (1 : Nat) else 0) := by
      by_cases hp : p a = true
      · have hq : ¬ q a = true := fun hq => hpq a hp hq
        simp [hp, hq, hpr a hp]
      · by_cases hq : q a = true
        · simp [hp, hq, hqr a hq]
        · simp [hp, hq]
    omega

lemma countFirst_pair_le (ballots : List (List α)) {c w : α} (h : c ≠ w) :
    countFirst ballots c + countFirst ballots w ≤ totalVotes ballots := by
  rw [totalVotes_eq_countP]
  apply countP_pair_le
  · intro b hc hw
    simp only [decide_eq_true_eq] at hc hw
    exact h (Option.some.inj (hc.symm.trans hw))
  · intro b hc
    simp only [decide_eq_true_eq] at hc
    simp [hc]
  · intro b hw
    simp only [decide_eq_true_eq] at hw
    simp [hw]

lemma countFirst_le_totalVotes (ballots : List (List α)) (c : α) :
    countFirst ballots c ≤ totalVotes ballots := by
  rw [totalVotes_eq_countP]
  apply List.countP_mono_left
  intro b _ hb
  simp only [decide_eq_true_eq] at hb
  simp [hb]

lemma countFirst_pos_mem {ballots : List (List α)} {w : α}
    (h : 0 < countFirst ballots w) : w ∈ allCandidates ballots := by
  unfold countFirst at h
  obtain ⟨b, hb, hw⟩ := List.countP_pos_iff.mp h
  simp only [decide_eq_true_eq] at hw
  rw [mem_allCandidates]
  refine ⟨b, hb, ?_⟩
  cases b with
  | nil => simp at hw
  | cons x t =>
    simp at hw
    simp [hw]

lemma find?_unique {β : Type} {l : List β} {p : β → Bool} {w : β}
    (hw : w ∈ l) (hpw : p w = true)
    (huniq : ∀ x ∈ l, p x = true → x = w) : l.find? p = some w := by
  induction l with
  | nil => simp at hw
  | cons a t ih =>
    by_cases hpa : p a = true
    · rw [List.find?_cons_of_pos _ hpa]
      rw [huniq a (List.mem_cons_self _ _) hpa]
    · rw [List.find?_cons_of_neg _ hpa]
      rcases List.mem_cons.mp hw with rfl | hw
      · exact absurd hpw hpa
      · exact ih hw (fun x hx hpx => huniq x (List.mem_cons_of_mem _ hx) hpx)

lemma majorityFind_eq_none_iff {ballots : List (List α)} :
    majorityFind ballots = none ↔
      ∀ c ∈ allCandidates ballots,
        ¬ (2 * countFirst ballots c > totalVotes ballots) := by
  unfold majorityFind
  rw [List.find?_eq_none, countVotes_eq]
  constructor
  · intro h c hc hmaj
    exact h (c, countFirst ballots c) (List.mem_map.mpr ⟨c, hc, rfl⟩)
      (by simpa using hmaj)
  · rintro h p hp
    obtain ⟨c, hc, rfl⟩ := List.mem_map.mp hp
    simpa using h c hc

lemma majorityFind_of_majority {ballots : List (List α)} {w : α}
    (h : 2 * countFirst ballots w > totalVotes ballots) :
    majorityFind ballots = some (w, countFirst ballots w) := by
  have hpos : 0 < countFirst ballots w := by
    by_contra hz
    push_neg at hz
    interval_cases h' : countFirst ballots w
    · omega
  have hwU : w ∈ allCandidates ballots := countFirst_pos_mem hpos
  unfold majorityFind
  rw [countVotes_eq, List.find?_map]
  have hfind :
      (allCandidates ballots).find?
        ((fun p => decide (2 * p.2 > totalVotes ballots)) ∘
          fun c => (c, countFirst ballots c)) = some w := by
    apply find?_unique hwU
    · simpa using h
    · intro x _ hpx
      simp only [Function.comp_apply, decide_eq_true_eq] at hpx
      by_contra hxw
      have hle := countFirst_pair_le ballots hxw
      omega
  rw [hfind]
  rfl

lemma totalVotes_pos_universe {ballots : List (List α)}
    (h : totalVotes ballots ≠ 0) : allCandidates ballots ≠ [] := by
  intro hnil
  apply h
  rw [totalVotes_eq, hnil]
  rfl

lemma universe_singleton_majority {ballots : List (List α)} {c : α}
    (hU : allCandidates ballots = [c]) (h : totalVotes ballots ≠ 0) :
    majorityFind ballots ≠ none := by
  have htot : totalVotes ballots = countFirst ballots c := by
    rw [totalVotes_eq, hU]
    simp
  intro hnone
  rw [majorityFind_eq_none_iff] at hnone
  have := hnone c (hU ▸ List.mem_cons_self c [])
  omega

lemma irvLoop_succ (sh : Nat → List (List α) → List (List α)) (ch : List α → α)
    (origs : List (List α)) (fuel : Nat) (ballots : List (List α))
    (rounds : List (List (List α))) :
    irvLoop sh ch origs (fuel + 1) ballots rounds =
      if totalVotes ballots = 0 then
        if origs.any List.isEmpty then .error .indexError
        else .ok (some (ch (firstChoices origs)), rounds)
      else
        match majorityFind ballots with
        | some p => .ok (some p.1, rounds)
        | none =>
          let ballots' := eliminateFrom ballots
          let rounds' := rounds ++ [sh rounds.length ballots']
          if rounds'.length > 1000 then .error .infiniteLoop
          else irvLoop sh ch origs fuel ballots' rounds' := rfl

lemma irvLoop_exhaust {sh : Nat → List (List α) → List (List α)}
    {ch : List α → α} {origs ballots : List (List α)} {fuel : Nat}
    {rounds : List (List (List α))} (htot : totalVotes ballots = 0) :
    irvLoop sh ch origs (fuel + 1) ballots rounds =
      if origs.any List.isEmpty then .error .indexError
      else .ok (some (ch (firstChoices origs)), rounds) := by
  rw [irvLoop_succ, if_pos htot]

lemma irvLoop_majority {sh : Nat → List (List α) → List (List α)}
    {ch : List α → α} {origs ballots : List (List α)} {fuel : Nat}
    {rounds : List (List (List α))} {p : α × Nat}
    (htot : totalVotes ballots ≠ 0) (hmaj : majorityFind ballots = some p) :
    irvLoop sh ch origs (fuel + 1) ballots rounds = .ok (some p.1, rounds) := by
  rw [irvLoop_succ, if_neg htot, hmaj]

lemma irvLoop_elim {sh : Nat → List (List α) → List (List α)}
    {ch : List α → α} {origs ballots : List (List α)} {fuel : Nat}
    {rounds : List (List (List α))}
    (htot : totalVotes ballots ≠ 0) (hmaj : majorityFind ballots = none) :
    irvLoop sh ch origs (fuel + 1) ballots rounds =
      if rounds.length + 1 > 1000 then .error .infiniteLoop
      else irvLoop sh ch origs fuel (eliminateFrom ballots)
        (rounds ++ [sh rounds.length (eliminateFrom ballots)]) := by
  rw [irvLoop_succ, if_neg htot, hmaj]
  simp

lemma mem_allCandidates_eliminateFrom {ballots : List (List α)} {c : α}
    (h : c ∈ allCandidates (eliminateFrom ballots)) :
    c ∈ allCandidates ballots ∧ c ∉ toEliminate ballots := by
  rw [mem_allCandidates] at h
  obtain ⟨nb, hnb, hc⟩ := h
  unfold eliminateFrom at hnb
  obtain ⟨b, hb, rfl⟩ := List.mem_map.mp hnb
  have hcb := List.mem_filter.mp hc
  constructor
  · rw [mem_allCandidates]
    exact ⟨b, hb, hcb.1⟩
  · simpa using hcb.2

lemma nodup_length_le {l1 l2 : List α} (hnd : l1.Nodup) (hsub : l1 ⊆ l2) :
    l1.length ≤ l2.length := by
  have h1 : l1.toFinset.card = l1.length := List.toFinset_card_of_nodup hnd
  have h2 : l1.toFinset ⊆ l2.toFinset := by
    intro a ha
    rw [List.mem_toFinset] at ha ⊢
    exact hsub ha
  calc l1.length = l1.toFinset.card := h1.symm
    _ ≤ l2.toFinset.card := Finset.card_le_card h2
    _ ≤ l2.length := l2.toFinset_card_le

lemma universe_shrink {ballots : List (List α)}
    (hne : allCandidates ballots ≠ []) :
    (allCandidates (eliminateFrom ballots)).length <
      (allCandidates ballots).length := by
  obtain ⟨e, he⟩ := List.exists_mem_of_ne_nil _ (toEliminate_ne_nil hne)
  have heU : e ∈ allCandidates ballots := (mem_toEliminate.mp he).1
  have hsub : allCandidates (eliminateFrom ballots) ⊆
      (allCandidates ballots).erase e := by
    intro c hc
    obtain ⟨hcU, hcn⟩ := mem_allCandidates_eliminateFrom hc
    have hce : c ≠ e := fun hce => hcn (hce ▸ he)
    exact (List.mem_erase_of_ne hce).mpr hcU
  have hlen := nodup_length_le (allCandidates_nodup _) hsub
  have herase := List.length_erase_of_mem heU
  have hpos : 0 < (allCandidates ballots).length :=
    List.length_pos.mpr hne
  omega

lemma firstChoices_ne_nil {origs : List (List α)} (hor : origs ≠ [])
    (hne : ∀ b ∈ origs, b ≠ []) : firstChoices origs ≠ [] := by
  cases origs with
  | nil => exact absurd rfl hor
  | cons b t =>
    cases hb : b with
    | nil => exact absurd hb (hne b (List.mem_cons_self _ _))
    | cons x xs =>
      intro hnil
      have : x ∈ firstChoices (b :: t) := by
        rw [mem_firstChoices]
        exact ⟨b, List.mem_cons_self _ _, by rw [hb]; rfl⟩
      rw [hb] at this
      rw [hnil] at this
      simp at this

lemma irvLoop_no_fuelOut (sh : Nat → List (List α) → List (List α))
    (ch : List α → α) (origs : List (List α)) :
    ∀ (fuel : Nat) (ballots : List (List α)) (rounds : List (List (List α))),
      rounds.length ≤ 1000 → 1002 ≤ fuel + rounds.length →
      irvLoop sh ch origs fuel ballots rounds ≠ .error .fuelOut := by
  intro fuel
  induction fuel with
  | zero =>
    intro ballots rounds h1 h2
    exfalso
    omega
  | succ f ih =>
    intro ballots rounds h1 h2
    by_cases htot : totalVotes ballots = 0
    · rw [irvLoop_exhaust htot]
      split <;> simp
    · cases hmaj : majorityFind ballots with
      | some p =>
        rw [irvLoop_majority htot hmaj]
        simp
      | none =>
        rw [irvLoop_elim htot hmaj]
        by_cases hg : rounds.length + 1 > 1000
        · rw [if_pos hg]
          simp
        · rw [if_neg hg]
          apply ih
          · simp only [List.length_append, List.length_cons, List.length_nil]
            omega
          · simp only [List.length_append, List.length_cons, List.length_nil]
            omega

lemma totalVotes_nil : totalVotes ([] : List (List α)) = 0 := rfl

lemma countFirst_le_total (ballots : List (List α)) (w : α) :
    countFirst ballots w ≤ totalVotes ballots :=
  countFirst_le_totalVotes ballots w

lemma irvLoop_majority_w {sh : Nat → List (List α) → List (List α)}
    {ch : List α → α} {origs ballots : List (List α)} {fuel : Nat}
    {rounds : List (List (List α))} {w : α}
    (h : 2 * countFirst ballots w > totalVotes ballots) :
    irvLoop sh ch origs (fuel + 1) ballots rounds = .ok (some w, rounds) := by
  have htot : totalVotes ballots ≠ 0 := by
    intro h0
    have := countFirst_le_total ballots w
    omega
  exact irvLoop_majority htot (majorityFind_of_majority h)

lemma forall2_map_self {β : Type} (l : List β) (f : β → β)
    (P : β → β → Prop) (h : ∀ b ∈ l, P (f b) b) :
    List.Forall₂ P (l.map f) l := by
  induction l with
  | nil => exact List.Forall₂.nil
  | cons a t ih =>
    exact List.Forall₂.cons (h a (List.mem_cons_self a t))
      (ih (fun b hb => h b (List.mem_cons_of_mem a hb)))

lemma irvSteps_succ (origs : List (List α)) (fuel : Nat)
    (ballots : List (List α)) (n : Nat) :
    irvSteps origs (fuel + 1) ballots n =
      if totalVotes ballots = 0 then
        if origs.any List.isEmpty then .error .indexError else .ok n
      else
        match majorityFind ballots with
        | some _ => .ok n
        | none =>
          if n + 1 > 1000 then .error .infiniteLoop
          else irvSteps origs fuel (eliminateFrom ballots) (n + 1) := rfl

lemma irvSteps_of_irvLoop (sh : Nat → List (List α) → List (List α))
    (ch : List α → α) (origs : List (List α)) :
    ∀ (fuel : Nat) (ballots : List (List α)) (rounds : List (List (List α)))
      (w : Option α) (rds : List (List (List α))),
      irvLoop sh ch origs fuel ballots rounds = .ok (w, rds) →
      irvSteps origs fuel ballots rounds.length = .ok rds.length := by
  intro fuel
  induction fuel with
  | zero =>
    intro ballots rounds w rds h
    exact absurd h (by simp [irvLoop])
  | succ f ih =>
    intro ballots rounds w rds h
    by_cases htot : totalVotes ballots = 0
    · rw [irvLoop_exhaust htot] at h
      by_cases hany : origs.any List.isEmpty
      · rw [if_pos hany] at h
        exact absurd h (by simp)
      · rw [if_neg hany] at h
        injection h with h1
        have hrds : rounds = rds := congrArg Prod.snd h1
        rw [irvSteps_succ, if_pos htot, if_neg hany, hrds]
    · cases hmaj : majorityFind ballots with
      | some p =>
        rw [irvLoop_majority htot hmaj] at h
        injection h with h1
        have hrds : rounds = rds := congrArg Prod.snd h1
        rw [irvSteps_succ, if_neg htot, hmaj, hrds]
      | none =>
        rw [irvLoop_elim htot hmaj] at h
        rw [irvSteps_succ, if_neg htot, hmaj]
        by_cases hg : rounds.length + 1 > 1000
        · rw [if_pos hg] at h
          exact absurd h (by simp)
        · rw [if_neg hg] at h
          have hstep := ih (eliminateFrom ballots)
            (rounds ++ [sh rounds.length (eliminateFrom ballots)]) w rds h
          rw [if_neg hg]
          simpa using hstep

/-- C6: for an empty ballot set (no ballots at all), `calculate_irv_winner`
returns `(None, [])` immediately, with no rounds recorded — for every
resolution of the random source. -/
theorem c6_empty_ballot_set (sh : Nat → List (List α) → List (List α))
    (ch : List α → α) :
    calculate_irv_winner sh ch ([] : List (κ × List α)) = .ok (none, []) := rfl

/-- C4 counterexample: the claim asserts that whenever `total_votes` reaches
0 the function returns a random original first choice.  On this election the
two candidates tie, both are eliminated, every ballot exhausts, and the
exhaustion branch then raises `IndexError` on the voter who ranked nothing,
returning no winner at all. -/
theorem c4_exhaustion_with_empty_ballot_raises :
    calculate_irv_winner idShuffle headChoice
        [(0, ([] : List Nat)), (1, [10]), (2, [20])] = .error .indexError := rfl

/-- C4 (amended): whenever `total_votes` is 0 and every original ballot is
non-empty, the loop returns the random selector applied to exactly the set
of first choices of the original, pre-elimination ballots; that winner is a
member of the set, and the set contains only candidates ranked first by at
least one voter at submission time. -/
theorem c4_exhaustion_tiebreak
    (sh : Nat → List (List α) → List (List α)) (ch : List α → α)
    (origs ballots : List (List α)) (rounds : List (List (List α)))
    (fuel : Nat)
    (hch : ∀ l : List α, l ≠ [] → ch l ∈ l)
    (hor : origs ≠ []) (hne : ∀ b ∈ origs, b ≠ [])
    (htot : totalVotes ballots = 0) :
    irvLoop sh ch origs (fuel + 1) ballots rounds =
        .ok (some (ch (firstChoices origs)), rounds) ∧
      ch (firstChoices origs) ∈ firstChoices origs ∧
      ∀ c ∈ firstChoices origs, ∃ b ∈ origs, b.head? = some c := by
  refine ⟨?_, ?_, ?_⟩
  · rw [irvLoop_exhaust htot]
    have hany : origs.any List.isEmpty = false := by
      rw [List.any_eq_false]
      intro b hb
      simpa [List.isEmpty_iff] using hne b hb
    rw [hany]
    simp
  · exact hch _ (firstChoices_ne_nil hor hne)
  · intro c hc
    exact mem_firstChoices.mp hc

/-- C4 witness: the amended theorem applied to a fully exhausted state whose
original ballots are `[[5], [6]]`. -/
theorem c4_exhaustion_tiebreak_witness :
    irvLoop idShuffle headChoice [[5], [6]] 3 [[], []] [] =
        .ok (some (headChoice (firstChoices [[5], [6]])), []) ∧
      headChoice (firstChoices [[5], [6]]) ∈ firstChoices [[5], [6]] ∧
      ∀ c ∈ firstChoices [[5], [6]], ∃ b ∈ [[5], [6]], b.head? = some c :=
  c4_exhaustion_tiebreak idShuffle headChoice [[5], [6]] [[], []] [] 2
    (fun l hl => headChoice_mem l hl)
    (by simp)
    (by decide)
    (by decide)

/-- C3: in every elimination step, (i) the counter holds an entry for every
candidate of the current universe, zero-vote candidates included; (ii) the
elimination set consists of exactly the candidates whose count equals the
minimum count; (iii) every eliminated candidate is removed from every ballot
and each resulting ballot is an order-preserving sublist of the old one;
(iv) one iteration of the loop appends exactly one snapshot of the
post-elimination ballot list to the round trace; and (v) the length of the
final trace equals the number of elimination steps performed. -/
theorem c3_elimination_step :
    (∀ ballots : List (List α),
      countVotes ballots =
        (allCandidates ballots).map (fun c => (c, countFirst ballots c))) ∧
    (∀ (ballots : List (List α)) (c : α),
      c ∈ toEliminate ballots ↔
        c ∈ allCandidates ballots ∧
          countFirst ballots c = minVotes ballots) ∧
    (∀ ballots : List (List α),
      List.Forall₂
        (fun nb b =>
          nb = b.filter (fun c => decide (c ∉ toEliminate ballots)) ∧
            nb.Sublist b)
        (eliminateFrom ballots) ballots) ∧
    (∀ (sh : Nat → List (List α) → List (List α)) (ch : List α → α)
        (origs ballots : List (List α)) (rounds : List (List (List α)))
        (fuel : Nat),
      totalVotes ballots ≠ 0 → majorityFind ballots = none →
      irvLoop sh ch origs (fuel + 1) ballots rounds =
        if rounds.length + 1 > 1000 then .error .infiniteLoop
        else irvLoop sh ch origs fuel (eliminateFrom ballots)
          (rounds ++ [sh rounds.length (eliminateFrom ballots)])) ∧
    (∀ (sh : Nat → List (List α) → List (List α)) (ch : List α → α)
        (rankings : List (κ × List α)) (w : Option α)
        (rds : List (List (List α))),
      calculate_irv_winner sh ch rankings = .ok (w, rds) →
      countElimSteps rankings = .ok rds.length) := by
  refine ⟨countVotes_eq, fun ballots c => mem_toEliminate, ?_, ?_, ?_⟩
  · intro ballots
    exact forall2_map_self ballots _ _
      (fun b _ => ⟨rfl, List.filter_sublist b⟩)
  · intro sh ch origs ballots rounds fuel htot hmaj
    exact irvLoop_elim htot hmaj
  · intro sh ch rankings w rds h
    unfold calculate_irv_winner at h
    unfold countElimSteps
    by_cases hlen : (rankings.map Prod.snd).length = 0
    · rw [if_pos hlen] at h
      injection h with h1
      have hrds : rds = [] := (congrArg Prod.snd h1).symm
      rw [if_pos hlen, hrds]
      rfl
    · rw [if_neg hlen] at h
      rw [if_neg hlen]
      have := irvSteps_of_irvLoop sh ch (rankings.map Prod.snd) 1002
        (rankings.map Prod.snd) [] w rds h
      simpa using this

/-- C3 witness: the five conjuncts of the theorem applied to the concrete
election `[[0, 1], [1, 0], [2]]` (three candidates all tied at one vote, no
majority) and to a concrete full run ending after one elimination step. -/
theorem c3_elimination_step_witness :
    (countVotes [[0, 1], [1, 0], [2]] =
      (allCandidates [[0, 1], [1, 0], [2]]).map
        (fun c => (c, countFirst [[0, 1], [1, 0], [2]] c))) ∧
    ((2 : Nat) ∈ toEliminate [[0, 1], [1, 0], [2]] ↔
      (2 : Nat) ∈ allCandidates [[0, 1], [1, 0], [2]] ∧
        countFirst [[0, 1], [1, 0], [2]] 2 = minVotes [[0, 1], [1, 0], [2]]) ∧
    (List.Forall₂
      (fun nb b =>
        nb = b.filter (fun c => decide (c ∉ toEliminate [[0, 1], [1, 0], [2]])) ∧
          nb.Sublist b)
      (eliminateFrom [[0, 1], [1, 0], [2]]) [[0, 1], [1, 0], [2]]) ∧
    (irvLoop idShuffle headChoice [[0, 1], [1, 0], [2]] 3 [[0, 1], [1, 0], [2]] [] =
      if ([] : List (List (List Nat))).length + 1 > 1000 then .error .infiniteLoop
      else irvLoop idShuffle headChoice [[0, 1], [1, 0], [2]] 2
        (eliminateFrom [[0, 1], [1, 0], [2]])
        ([] ++ [idShuffle ([] : List (List (List Nat))).length
          (eliminateFrom [[0, 1], [1, 0], [2]])])) ∧
    (countElimSteps [(0, [0, 1]), (1, [1, 0]), (2, [2])] =
      .ok ([[[], [], []]] : List (List (List Nat))).length) := by
  have h := c3_elimination_step (α := Nat) (κ := Nat)
  refine ⟨h.1 _, h.2.1 _ _, h.2.2.1 _, ?_, ?_⟩
  · exact h.2.2.2.1 idShuffle headChoice [[0, 1], [1, 0], [2]]
      [[0, 1], [1, 0], [2]] [] 2 (by decide) (by decide)
  · exact h.2.2.2.2 idShuffle headChoice [(0, [0, 1]), (1, [1, 0]), (2, [2])]
      (some 0) [[[], [], []]] rfl

lemma listMin_const {xs : List Nat} {v : Nat} (hne : xs ≠ [])
    (h : ∀ x ∈ xs, x = v) : listMin xs = v :=
  h _ (listMin_mem hne)

lemma half_not_majority {ballots : List (List α)} {w : α}
    (h : 2 * countFirst ballots w = totalVotes ballots) :
    majorityFind ballots = none := by
  rw [majorityFind_eq_none_iff]
  intro c hc
  by_cases hcw : c = w
  · subst hcw
    omega
  · have := countFirst_pair_le ballots hcw
    omega

lemma all_tied_eliminates_all {ballots : List (List α)} {v : Nat}
    (hv : ∀ c ∈ allCandidates ballots, countFirst ballots c = v) :
    eliminateFrom ballots = ballots.map (fun _ => []) := by
  have helim : ∀ c ∈ allCandidates ballots, c ∈ toEliminate ballots := by
    intro c hc
    rw [mem_toEliminate]
    refine ⟨hc, ?_⟩
    unfold minVotes
    rw [countVotes_values]
    have hUne : allCandidates ballots ≠ [] := by
      intro hnil
      rw [hnil] at hc
      simp at hc
    rw [hv c hc, listMin_const (by simpa using hUne)]
    intro x hx
    obtain ⟨d, hd, rfl⟩ := List.mem_map.mp hx
    exact hv d hd
  unfold eliminateFrom
  apply List.map_congr_left
  intro b hb
  rw [List.filter_eq_nil_iff]
  intro c hc
  simp only [decide_eq_true_eq, Decidable.not_not]
  exact helim c (mem_allCandidates.mpr ⟨b, hb, hc⟩)

lemma totalVotes_all_empty (ballots : List (List α)) :
    totalVotes (ballots.map (fun _ => ([] : List α))) = 0 := by
  rw [totalVotes_eq_countP]
  rw [List.countP_eq_zero]
  intro b hb
  obtain ⟨x, _, rfl⟩ := List.mem_map.mp hb
  simp

lemma irvLoop_snapshot_length (sh : Nat → List (List α) → List (List α))
    (ch : List α → α) (origs : List (List α))
    (hsh : ∀ (n : Nat) (l : List (List α)), (sh n l).Perm l) (m : Nat) :
    ∀ (fuel : Nat) (ballots : List (List α)) (rounds : List (List (List α)))
      (w : Option α) (rds : List (List (List α))),
      ballots.length = m → (∀ s ∈ rounds, s.length = m) →
      irvLoop sh ch origs fuel ballots rounds = .ok (w, rds) →
      ∀ s ∈ rds, s.length = m := by
  intro fuel
  induction fuel with
  | zero =>
    intro ballots rounds w rds _ _ h
    exact absurd h (by simp [irvLoop])
  | succ f ih =>
    intro ballots rounds w rds hb hr h
    by_cases htot : totalVotes ballots = 0
    · rw [irvLoop_exhaust htot] at h
      by_cases hany : origs.any List.isEmpty
      · rw [if_pos hany] at h
        exact absurd h (by simp)
      · rw [if_neg hany] at h
        injection h with h1
        have hrds : rounds = rds := congrArg Prod.snd h1
        exact hrds ▸ hr
    · cases hmaj : majorityFind ballots with
      | some p =>
        rw [irvLoop_majority htot hmaj] at h
        injection h with h1
        have hrds : rounds = rds := congrArg Prod.snd h1
        exact hrds ▸ hr
      | none =>
        rw [irvLoop_elim htot hmaj] at h
        by_cases hg : rounds.length + 1 > 1000
        · rw [if_pos hg] at h
          exact absurd h (by simp)
        · rw [if_neg hg] at h
          apply ih (eliminateFrom ballots)
            (rounds ++ [sh rounds.length (eliminateFrom ballots)]) w rds
          · unfold eliminateFrom
            rw [List.length_map]
            exact hb
          · intro s hs
            rcases List.mem_append.mp hs with hs | hs
            · exact hr s hs
            · have hseq : s = sh rounds.length (eliminateFrom ballots) := by
                simpa using hs
              rw [hseq, (hsh rounds.length (eliminateFrom ballots)).length_eq]
              unfold eliminateFrom
              rw [List.length_map]
              exact hb
          · exact h

/-- C9: every round snapshot produced by `calculate_irv_winner` contains
exactly one entry per ballot of the input set — exhausted ballots stay in the
list as empty lists — so every snapshot's length equals the number of input
ballots (for any shuffle that permutes its argument). -/
theorem c9_snapshot_lengths (sh : Nat → List (List α) → List (List α))
    (ch : List α → α) (rankings : List (κ × List α))
    (hsh : ∀ (n : Nat) (l : List (List α)), (sh n l).Perm l)
    (w : Option α) (rds : List (List (List α)))
    (h : calculate_irv_winner sh ch rankings = .ok (w, rds)) :
    ∀ s ∈ rds, s.length = rankings.length := by
  unfold calculate_irv_winner at h
  by_cases hlen : (rankings.map Prod.snd).length = 0
  · rw [if_pos hlen] at h
    injection h with h1
    have hrds : rds = [] := (congrArg Prod.snd h1).symm
    rw [hrds]
    simp
  · rw [if_neg hlen] at h
    have := irvLoop_snapshot_length sh ch (rankings.map Prod.snd) hsh
      rankings.length 1002 (rankings.map Prod.snd) [] w rds
      (List.length_map _ _) (by simp) h
    exact this

set_option maxHeartbeats 1000000 in
/-- C9 witness: a three-ballot election whose single round snapshot has three
entries, the exhausted ballots included as empty lists. -/
theorem c9_snapshot_lengths_witness :
    ([[], [], []] : List (List Nat)).length =
      ([(0, [0, 1]), (1, [1, 0]), (2, [2])] : List (Nat × List Nat)).length :=
  by
  have h := c9_snapshot_lengths (α := Nat) (κ := Nat) idShuffle headChoice
    [(0, [0, 1]), (1, [1, 0]), (2, [2])]
    (fun n l => List.Perm.refl l) (some 0) [[[], [], []]] rfl
  exact h [[], [], []] (by simp)

lemma forall2_append_single {β : Type} {P : β → β → Prop}
    {l1 l2 : List β} {x y : β} (h : List.Forall₂ P l1 l2) (hxy : P x y) :
    List.Forall₂ P (l1 ++ [x]) (l2 ++ [y]) := by
  induction h with
  | nil => exact List.Forall₂.cons hxy List.Forall₂.nil
  | cons hab _ ih => exact List.Forall₂.cons hab ih

lemma irvLoop_trace_perm (sh1 sh2 : Nat → List (List α) → List (List α))
    (ch1 ch2 : List α → α) (origs : List (List α))
    (hsh1 : ∀ (n : Nat) (l : List (List α)), (sh1 n l).Perm l)
    (hsh2 : ∀ (n : Nat) (l : List (List α)), (sh2 n l).Perm l) :
    ∀ (fuel : Nat) (ballots : List (List α))
      (rounds1 rounds2 : List (List (List α))),
      List.Forall₂ List.Perm rounds1 rounds2 →
      (∃ e, irvLoop sh1 ch1 origs fuel ballots rounds1 = .error e ∧
        irvLoop sh2 ch2 origs fuel ballots rounds2 = .error e) ∨
      (∃ w1 w2 t1 t2,
        irvLoop sh1 ch1 origs fuel ballots rounds1 = .ok (w1, t1) ∧
        irvLoop sh2 ch2 origs fuel ballots rounds2 = .ok (w2, t2) ∧
        t1.length = t2.length ∧ List.Forall₂ List.Perm t1 t2) := by
  intro fuel
  induction fuel with
  | zero =>
    intro ballots rounds1 rounds2 _
    exact Or.inl ⟨.fuelOut, rfl, rfl⟩
  | succ f ih =>
    intro ballots rounds1 rounds2 hperm
    have hlen := hperm.length_eq
    by_cases htot : totalVotes ballots = 0
    · rw [irvLoop_exhaust htot, irvLoop_exhaust htot]
      by_cases hany : origs.any List.isEmpty
      · rw [if_pos hany, if_pos hany]
        exact Or.inl ⟨.indexError, rfl, rfl⟩
      · rw [if_neg hany, if_neg hany]
        exact Or.inr ⟨_, _, rounds1, rounds2, rfl, rfl, hlen, hperm⟩
    · cases hmaj : majorityFind ballots with
      | some p =>
        rw [irvLoop_majority htot hmaj, irvLoop_majority htot hmaj]
        exact Or.inr ⟨_, _, rounds1, rounds2, rfl, rfl, hlen, hperm⟩
      | none =>
        rw [irvLoop_elim htot hmaj, irvLoop_elim htot hmaj]
        by_cases hg : rounds1.length + 1 > 1000
        · rw [if_pos hg, if_pos (hlen ▸ hg)]
          exact Or.inl ⟨.infiniteLoop, rfl, rfl⟩
        · rw [if_neg hg, if_neg (hlen ▸ hg)]
          apply ih
          apply forall2_append_single hperm
          rw [← hlen]
          exact (hsh1 rounds1.length (eliminateFrom ballots)).trans
            (hsh2 rounds1.length (eliminateFrom ballots)).symm

/-- C8: for every input ballot set and any two resolutions of the random
source, the two runs of `calculate_irv_winner` either fail identically or
both succeed with round traces of the same length whose corresponding rounds
are permutations of each other (the same multiset of remaining rankings);
the shuffle affects only the order of ballots within each snapshot. -/
theorem c8_shuffle_only_reorders
    (sh1 sh2 : Nat → List (List α) → List (List α)) (ch1 ch2 : List α → α)
    (rankings : List (κ × List α))
    (hsh1 : ∀ (n : Nat) (l : List (List α)), (sh1 n l).Perm l)
    (hsh2 : ∀ (n : Nat) (l : List (List α)), (sh2 n l).Perm l) :
    (∃ e, calculate_irv_winner sh1 ch1 rankings = .error e ∧
      calculate_irv_winner sh2 ch2 rankings = .error e) ∨
    (∃ w1 w2 t1 t2,
      calculate_irv_winner sh1 ch1 rankings = .ok (w1, t1) ∧
      calculate_irv_winner sh2 ch2 rankings = .ok (w2, t2) ∧
      t1.length = t2.length ∧ List.Forall₂ List.Perm t1 t2) := by
  unfold calculate_irv_winner
  by_cases hlen : (rankings.map Prod.snd).length = 0
  · rw [if_pos hlen, if_pos hlen]
    exact Or.inr ⟨none, none, [], [], rfl, rfl, rfl, List.Forall₂.nil⟩
  · rw [if_neg hlen, if_neg hlen]
    exact irvLoop_trace_perm sh1 sh2 ch1 ch2 (rankings.map Prod.snd) hsh1 hsh2
      1002 (rankings.map Prod.snd) [] [] List.Forall₂.nil

/-- C8 witness: the theorem applied to a concrete election with the identity
shuffle against the reversing shuffle. -/
theorem c8_shuffle_only_reorders_witness :
    (∃ e, calculate_irv_winner idShuffle headChoice
        ([(0, [0]), (1, [1])] : List (Nat × List Nat)) = .error e ∧
      calculate_irv_winner revShuffle headChoice [(0, [0]), (1, [1])] = .error e) ∨
    (∃ w1 w2 t1 t2,
      calculate_irv_winner idShuffle headChoice
          ([(0, [0]), (1, [1])] : List (Nat × List Nat)) = .ok (w1, t1) ∧
      calculate_irv_winner revShuffle headChoice [(0, [0]), (1, [1])] = .ok (w2, t2) ∧
      t1.length = t2.length ∧ List.Forall₂ List.Perm t1 t2) :=
  c8_shuffle_only_reorders (α := Nat) (κ := Nat) idShuffle revShuffle
    headChoice headChoice [(0, [0]), (1, [1])]
    (fun n l => List.Perm.refl l) (fun n l => l.reverse_perm)

lemma getD_append_left {h t : List (List α)} {i : Nat} (hi : i < h.length) :
    (h ++ t).getD i [] = h.getD i [] := by
  unfold List.getD
  rw [List.get?_append hi]

lemma getD_set_ne {h : List (List α)} {a i : Nat} {v : List α} (hia : i ≠ a) :
    (h.set a v).getD i [] = h.getD i [] := by
  unfold List.getD
  rw [List.get?_set_ne _ _ (Ne.symm hia)]

lemma heapElim_length (elim : List α) :
    ∀ (bAddrs : List Nat) (h : List (List α)),
      (heapElim elim h bAddrs).length = h.length := by
  intro bAddrs
  induction bAddrs with
  | nil => intro h; rfl
  | cons a t ih =>
    intro h
    show (heapElim elim (h.set a _) t).length = h.length
    rw [ih, List.length_set]

lemma heapElim_frame (elim : List α) {n : Nat} :
    ∀ (bAddrs : List Nat) (h : List (List α)),
      (∀ a ∈ bAddrs, n ≤ a) →
      ∀ i < n, (heapElim elim h bAddrs).getD i [] = h.getD i [] := by
  intro bAddrs
  induction bAddrs with
  | nil => intro h _ i _; rfl
  | cons a t ih =>
    intro h haddr i hi
    show (heapElim elim (h.set a _) t).getD i [] = h.getD i []
    rw [ih _ (fun b hb => haddr b (List.mem_cons_of_mem _ hb)) i hi]
    exact getD_set_ne (by
      have := haddr a (List.mem_cons_self _ _)
      omega)

lemma irvLoopHeap_frame (sh : Nat → List (List α) → List (List α))
    (ch : List α → α) (origAddrs : List Nat) (n : Nat) :
    ∀ (fuel : Nat) (h : List (List α)) (bAddrs : List Nat)
      (rounds : List (List (List α))),
      (∀ a ∈ bAddrs, n ≤ a) → n ≤ h.length →
      ∀ i < n,
        ((irvLoopHeap sh ch origAddrs fuel h bAddrs rounds).2).getD i [] =
          h.getD i [] := by
  intro fuel
  induction fuel with
  | zero => intro h bAddrs rounds _ _ i _; rfl
  | succ f ih =>
    intro h bAddrs rounds haddr hn i hi
    simp only [irvLoopHeap]
    by_cases htot : totalVotes (bAddrs.map (readCell h)) = 0
    · rw [if_pos htot]
      by_cases hany : (origAddrs.map (readCell h)).any List.isEmpty
      · rw [if_pos hany]
        exact getD_append_left (by omega)
      · rw [if_neg hany]
        exact getD_append_left (by omega)
    · rw [if_neg htot]
      cases hmaj : majorityFind (bAddrs.map (readCell h)) with
      | some p => rfl
      | none =>
        dsimp only
        have hlen' : (heapElim (toEliminate (bAddrs.map (readCell h))) h bAddrs).length
            = h.length := heapElim_length _ _ _
        have hframe : ∀ j < n,
            (heapElim (toEliminate (bAddrs.map (readCell h))) h bAddrs).getD j [] =
              h.getD j [] :=
          heapElim_frame _ _ _ haddr
        by_cases hg : (rounds ++ [sh rounds.length
            (bAddrs.map (readCell (heapElim (toEliminate (bAddrs.map (readCell h))) h bAddrs)))]).length > 1000
        · rw [if_pos hg]
          rw [getD_append_left (by omega)]
          exact hframe i hi
        · rw [if_neg hg]
          rw [ih _ bAddrs _ haddr (by
            rw [List.length_append, hlen']
            omega) i hi]
          rw [getD_append_left (by omega)]
          exact hframe i hi

/-- C7: `calculate_irv_winner` never mutates the caller's ballot objects: in
the heap model, every cell that existed before the call — in particular every
ballot list reachable from the `rankings` mapping — holds exactly its
original value in the final heap; the engine works only on the fresh
deep-copied cells. -/
theorem c7_no_mutation_of_input (sh : Nat → List (List α) → List (List α))
    (ch : List α → α) (rankings : List (κ × Nat)) (h0 : List (List α))
    (i : Nat) (hi : i < h0.length) :
    ((calculate_irv_winner_heap sh ch rankings h0).2).getD i [] =
      h0.getD i [] := by
  unfold calculate_irv_winner_heap
  by_cases hlen : (List.range' h0.length (rankings.map Prod.snd).length).length = 0
  · rw [if_pos hlen]
    exact getD_append_left hi
  · rw [if_neg hlen]
    rw [irvLoopHeap_frame sh ch (rankings.map Prod.snd) h0.length 1002 _ _ []
      (fun a ha => by
        rw [List.mem_range'_1] at ha
        omega)
      (by simp) i hi]
    exact getD_append_left hi

/-- C7 witness: a caller heap with one ballot object `[5]`; after the tally
the caller's cell still holds `[5]`. -/
theorem c7_no_mutation_of_input_witness :
    0 < ([[5]] : List (List Nat)).length ∧
      ((calculate_irv_winner_heap idShuffle headChoice
          ([("v", 0)] : List (String × Nat)) [[5]]).2).getD 0 [] =
        ([[5]] : List (List Nat)).getD 0 [] :=
  ⟨by decide, c7_no_mutation_of_input idShuffle headChoice [("v", 0)] [[5]] 0
    (by decide)⟩

lemma chainBallots_succ (r n : Nat) :
    chainBallots r (n + 1) =
      List.replicate (r + 1) [r] ++ chainBallots (r + 1) n := by
  unfold chainBallots
  rw [List.range'_succ]
  rfl

lemma chainBallots_zero (r : Nat) : chainBallots r 0 = [] := rfl

lemma foldl_insertNew_replicate_empty {m : Nat} {acc : List Nat} :
    (List.replicate m ([] : List Nat)).foldl
      (fun acc row => row.foldl insertNew acc) acc = acc := by
  induction m with
  | zero => rfl
  | succ m ih => exact ih

lemma foldl_insertNew_replicate_single {m : Nat} {c : Nat} {acc : List Nat}
    (hc : c ∈ acc) :
    (List.replicate m ([c] : List Nat)).foldl
      (fun acc row => row.foldl insertNew acc) acc = acc := by
  induction m with
  | zero => rfl
  | succ m ih =>
    show (List.replicate m ([c] : List Nat)).foldl _ (insertNew acc c) = acc
    rw [insertNew, if_pos hc]
    exact ih

lemma allCandidates_chain_aux :
    ∀ (n r : Nat) (acc : List Nat), (∀ x ∈ acc, x < r) →
      (chainBallots r n).foldl (fun acc row => row.foldl insertNew acc) acc =
        acc ++ List.range' r n := by
  intro n
  induction n with
  | zero =>
    intro r acc _
    simp [chainBallots_zero]
  | succ n ih =>
    intro r acc hacc
    rw [chainBallots_succ, List.foldl_append]
    have hrn : r ∉ acc := fun h => absurd (hacc r h) (by omega)
    have hrep : (List.replicate (r + 1) ([r] : List Nat)).foldl
        (fun acc row => row.foldl insertNew acc) acc = acc ++ [r] := by
      simp only [List.replicate_succ, List.foldl_cons, List.foldl_nil]
      rw [insertNew, if_neg hrn]
      exact foldl_insertNew_replicate_single (by simp)
    rw [hrep]
    rw [ih (r + 1) (acc ++ [r]) (by
      intro x hx
      rcases List.mem_append.mp hx with hx | hx
      · exact lt_trans (hacc x hx) (by omega)
      · simp at hx
        omega)]
    rw [List.range'_succ r n 1]
    simp [List.append_assoc]

lemma allCandidates_bigState (r n : Nat) :
    allCandidates (bigState r n) = List.range' r n := by
  unfold allCandidates bigState
  rw [List.foldl_append, foldl_insertNew_replicate_empty]
  rw [allCandidates_chain_aux n r [] (by simp)]
  rfl

lemma countP_replicate {β : Type} (m : Nat) (x : β) (p : β → Bool) :
    (List.replicate m x).countP p = if p x then m else 0 := by
  induction m with
  | zero => simp
  | succ m ih =>
    rw [List.replicate_succ, List.countP_cons, ih]
    split <;> omega

lemma countFirst_chain (c : Nat) :
    ∀ n r, countFirst (chainBallots r n) c =
      if c ∈ List.range' r n then c + 1 else 0 := by
  intro n
  induction n with
  | zero =>
    intro r
    simp [chainBallots_zero, countFirst_nil]
  | succ n ih =>
    intro r
    rw [chainBallots_succ]
    unfold countFirst
    rw [List.countP_append]
    show (List.replicate (r + 1) [r]).countP _ + countFirst (chainBallots (r + 1) n) c = _
    rw [countP_replicate, ih (r + 1), List.range'_succ r n 1]
    by_cases hcr : c = r
    · subst hcr
      have : c ∉ List.range' (c + 1) n := by
        intro hmem
        rw [List.mem_range'_1] at hmem
        omega
      simp [this]
    · have hne : ¬ (([r] : List Nat).head? = some c) := by simp [Ne.symm hcr]
      simp only [hne, decide_eq_true_eq]
      by_cases hmem : c ∈ List.range' (r + 1) n
      · simp [hmem, List.mem_cons, hcr]
      · simp [hmem, List.mem_cons, hcr]

lemma countFirst_bigState {r n c : Nat} (hc : c ∈ List.range' r n) :
    countFirst (bigState r n) c = c + 1 := by
  unfold bigState countFirst
  rw [List.countP_append]
  show (List.replicate (triNum r) []).countP _ + countFirst (chainBallots r n) c = _
  rw [countP_replicate, countFirst_chain]
  simp [hc]

lemma sum_range'_succ_add_tri :
    ∀ (n r : Nat),
      ((List.range' r n).map (fun c => c + 1)).sum + triNum r = triNum (r + n) := by
  intro n
  induction n with
  | zero => intro r; simp
  | succ n ih =>
    intro r
    rw [List.range'_succ r n 1]
    simp only [List.map_cons, List.sum_cons]
    have := ih (r + 1)
    show r + 1 + ((List.range' (r + 1) n).map (fun c => c + 1)).sum + triNum r =
      triNum (r + (n + 1))
    have htr : triNum (r + 1) = triNum r + (r + 1) := rfl
    have harith : r + (n + 1) = (r + 1) + n := by omega
    rw [harith]
    omega

lemma totalVotes_bigState (r n : Nat) :
    totalVotes (bigState r n) + triNum r = triNum (r + n) := by
  rw [totalVotes_eq, allCandidates_bigState]
  have hmap : (List.range' r n).map (countFirst (bigState r n)) =
      (List.range' r n).map (fun c => c + 1) := by
    apply List.map_congr_left
    intro c hc
    exact countFirst_bigState hc
  rw [hmap]
  exact sum_range'_succ_add_tri n r

lemma sum_range'_lower :
    ∀ (n r : Nat), 3 ≤ n →
      2 * (r + n) ≤ ((List.range' r n).map (fun c => c + 1)).sum := by
  intro n
  induction n with
  | zero => intro r h; omega
  | succ n ih =>
    intro r h
    rw [List.range'_succ r n 1]
    simp only [List.map_cons, List.sum_cons]
    by_cases hn : 3 ≤ n
    · have := ih (r + 1) hn
      omega
    · have hn3 : n = 2 := by omega
      subst hn3
      have h2 : List.range' (r + 1) 2 = [r + 1, r + 2] := by
        rw [List.range'_succ (r+1) 1 1]
        rw [List.range'_succ (r+2) 0 1]
        rfl
      rw [h2]
      simp
      omega

lemma totalVotes_bigState_lower (r : Nat) {n : Nat} (h : 3 ≤ n) :
    2 * (r + n) ≤ totalVotes (bigState r n) := by
  have h1 := totalVotes_bigState r n
  rw [totalVotes_eq, allCandidates_bigState] at h1 ⊢
  have hmap : (List.range' r n).map (countFirst (bigState r n)) =
      (List.range' r n).map (fun c => c + 1) := by
    apply List.map_congr_left
    intro c hc
    exact countFirst_bigState hc
  rw [hmap]
  exact sum_range'_lower n r h

lemma bigState_total_ne_zero {r n : Nat} (h : 3 ≤ n) :
    totalVotes (bigState r n) ≠ 0 := by
  have := totalVotes_bigState_lower r h
  omega

lemma bigState_no_majority {r n : Nat} (h : 3 ≤ n) :
    majorityFind (bigState r n) = none := by
  rw [majorityFind_eq_none_iff]
  intro c hc
  rw [allCandidates_bigState] at hc
  rw [countFirst_bigState hc]
  rw [List.mem_range'_1] at hc
  have := totalVotes_bigState_lower r h
  omega

lemma bigState_minVotes {r n : Nat} (h : 1 ≤ n) :
    minVotes (bigState r n) = r + 1 := by
  unfold minVotes
  rw [countVotes_values, allCandidates_bigState]
  have hmap : (List.range' r n).map (countFirst (bigState r n)) =
      (List.range' r n).map (fun c => c + 1) := by
    apply List.map_congr_left
    intro c hc
    exact countFirst_bigState hc
  rw [hmap]
  have hne : ((List.range' r n).map (fun c => c + 1)) ≠ [] := by
    simp
    omega
  have hmem := listMin_mem hne
  obtain ⟨c, hc, hval⟩ := List.mem_map.mp hmem
  rw [List.mem_range'_1] at hc
  have hle : listMin ((List.range' r n).map (fun c => c + 1)) ≤ r + 1 := by
    apply listMin_le
    apply List.mem_map.mpr
    refine ⟨r, ?_, rfl⟩
    rw [List.mem_range'_1]
    omega
  omega

lemma filter_range'_pairs_nil :
    ∀ (m s r : Nat), r + 1 ≤ s →
      ((List.range' s m).map (fun c => (c, c + 1))).filter
        (fun p => decide (p.2 = r + 1)) = [] := by
  intro m
  induction m with
  | zero => intro s r _; rfl
  | succ m ih =>
    intro s r hs
    rw [List.range'_succ s m 1]
    simp only [List.map_cons, List.filter_cons]
    have : ¬ ((s, s + 1).2 = r + 1) := by omega
    simp only [decide_eq_true_eq, this, if_neg, decide_eq_false_iff_not]
    rw [if_neg (by simpa using this)]
    exact ih (s + 1) r (by omega)

lemma bigState_toEliminate {r n : Nat} (h : 1 ≤ n) :
    toEliminate (bigState r n) = [r] := by
  unfold toEliminate
  rw [countVotes_eq, allCandidates_bigState, bigState_minVotes h]
  have hmap : (List.range' r n).map (fun c => (c, countFirst (bigState r n) c)) =
      (List.range' r n).map (fun c => (c, c + 1)) := by
    apply List.map_congr_left
    intro c hc
    rw [countFirst_bigState hc]
  rw [hmap]
  obtain ⟨m, rfl⟩ : ∃ m, n = m + 1 := ⟨n - 1, by omega⟩
  rw [List.range'_succ r m 1]
  simp only [List.map_cons, List.filter_cons]
  rw [if_pos (by simp)]
  rw [filter_range'_pairs_nil m (r + 1) r (by omega)]
  rfl

lemma chainBallots_filter_id {r : Nat} :
    ∀ (m s : Nat), r < s →
      (chainBallots s m).map
        (fun b => b.filter (fun c => decide (c ∉ ([r] : List Nat)))) =
        chainBallots s m := by
  intro m
  induction m with
  | zero => intro s _; rfl
  | succ m ih =>
    intro s hs
    rw [chainBallots_succ, List.map_append, ih (s + 1) (by omega)]
    congr 1
    rw [List.map_replicate]
    congr 1
    have : ¬ (s ∈ ([r] : List Nat)) := by
      simp
      omega
    simp [this]
    omega

lemma bigState_eliminate {r m : Nat} (h : 1 ≤ m + 1) :
    eliminateFrom (bigState r (m + 1)) = bigState (r + 1) m := by
  unfold eliminateFrom
  rw [bigState_toEliminate h]
  show (List.replicate (triNum r) [] ++ chainBallots r (m + 1)).map _ =
    bigState (r + 1) m
  rw [List.map_append, List.map_replicate]
  rw [chainBallots_succ, List.map_append, List.map_replicate]
  rw [chainBallots_filter_id m (r + 1) (by omega)]
  show List.replicate (triNum r) [] ++
    (List.replicate (r + 1) ([r].filter _) ++ chainBallots (r + 1) m) = _
  have hfil : ([r] : List Nat).filter (fun c => decide (c ∉ ([r] : List Nat))) = [] := by
    simp
  rw [hfil]
  unfold bigState
  rw [← List.append_assoc, ← List.replicate_add]
  rfl

lemma bigState_step (sh : Nat → List (List Nat) → List (List Nat))
    (ch : List Nat → Nat) (origs : List (List Nat)) {r m : Nat} (hm : 2 ≤ m)
    (fuel : Nat) (rounds : List (List (List Nat))) :
    irvLoop sh ch origs (fuel + 1) (bigState r (m + 1)) rounds =
      if rounds.length + 1 > 1000 then .error .infiniteLoop
      else irvLoop sh ch origs fuel (bigState (r + 1) m)
        (rounds ++ [sh rounds.length (bigState (r + 1) m)]) := by
  rw [irvLoop_elim (bigState_total_ne_zero (by omega))
    (bigState_no_majority (by omega))]
  rw [bigState_eliminate (by omega)]

lemma bigState_trip (sh : Nat → List (List Nat) → List (List Nat))
    (ch : List Nat → Nat) (origs : List (List Nat)) :
    ∀ (d r n : Nat) (rounds : List (List (List Nat))) (fuel : Nat),
      d + 3 ≤ n → rounds.length + d = 1000 → d + 1 ≤ fuel →
      irvLoop sh ch origs fuel (bigState r n) rounds = .error .infiniteLoop := by
  intro d
  induction d with
  | zero =>
    intro r n rounds fuel hn hlen hfuel
    obtain ⟨f, rfl⟩ : ∃ f, fuel = f + 1 := ⟨fuel - 1, by omega⟩
    obtain ⟨m, rfl⟩ : ∃ m, n = m + 1 := ⟨n - 1, by omega⟩
    rw [bigState_step sh ch origs (by omega) f rounds]
    rw [if_pos (by omega)]
  | succ d ih =>
    intro r n rounds fuel hn hlen hfuel
    obtain ⟨f, rfl⟩ : ∃ f, fuel = f + 1 := ⟨fuel - 1, by omega⟩
    obtain ⟨m, rfl⟩ : ∃ m, n = m + 1 := ⟨n - 1, by omega⟩
    rw [bigState_step sh ch origs (by omega) f rounds]
    rw [if_neg (by omega)]
    apply ih (r + 1) m _ f (by omega) (by simp; omega) (by omega)

lemma bigState_zero_head :
    bigState 0 1003 = [0] :: chainBallots 1 1002 := by
  unfold bigState
  rw [chainBallots_succ]
  rfl

lemma irvLoop_no_ceiling (sh : Nat → List (List α) → List (List α))
    (ch : List α → α) (origs : List (List α)) :
    ∀ (fuel : Nat) (ballots : List (List α)) (rounds : List (List (List α))),
      rounds.length + (allCandidates ballots).length ≤ 1001 →
      irvLoop sh ch origs fuel ballots rounds ≠ .error .infiniteLoop := by
  intro fuel
  induction fuel with
  | zero =>
    intro ballots rounds _
    simp [irvLoop]
  | succ f ih =>
    intro ballots rounds hlen
    by_cases htot : totalVotes ballots = 0
    · rw [irvLoop_exhaust htot]
      split <;> simp
    · cases hmaj : majorityFind ballots with
      | some p =>
        rw [irvLoop_majority htot hmaj]
        simp
      | none =>
        have hUne : allCandidates ballots ≠ [] := totalVotes_pos_universe htot
        have hU2 : 2 ≤ (allCandidates ballots).length := by
          cases hU : allCandidates ballots with
          | nil => exact absurd hU hUne
          | cons c t =>
            cases t with
            | nil => exact absurd hmaj (universe_singleton_majority hU htot)
            | cons c2 t2 => simp
        rw [irvLoop_elim htot hmaj]
        rw [if_neg (by omega)]
        have hshrink := universe_shrink hUne
        apply ih
        simp only [List.length_append, List.length_cons, List.length_nil]
        omega

lemma calculate_irv_winner_of_ne_empty (sh : Nat → List (List α) → List (List α))
    (ch : List α → α) (rankings : List (κ × List α)) (h : rankings ≠ []) :
    calculate_irv_winner sh ch rankings =
      irvLoop sh ch (rankings.map Prod.snd) 1002 (rankings.map Prod.snd) [] := by
  unfold calculate_irv_winner
  rw [if_neg (by
    simp only [List.length_map, List.length_eq_zero]
    exact h)]

/-- C5 counterexample: the claim asserts the 1000-round ceiling is never
tripped for any input.  On the election `bigRankings` — 1003 candidates where
candidate `i` is ranked first by exactly `i + 1` voters and nobody ranks a
second choice — every round eliminates exactly the one weakest surviving
candidate without producing a majority, the 1001st round snapshot trips the
`len(rounds) > 1000` guard, and `calculate_irv_winner` raises the fatal
infinite-loop exception. -/
theorem c5_ceiling_tripped :
    calculate_irv_winner idShuffle headChoice bigRankings =
      .error .infiniteLoop := by
  have hne : bigRankings ≠ [] := by
    unfold bigRankings
    rw [bigState_zero_head]
    simp
  rw [calculate_irv_winner_of_ne_empty idShuffle headChoice bigRankings hne]
  have hvals : bigRankings.map Prod.snd = bigState 0 1003 := by
    unfold bigRankings
    exact List.enum_map_snd _
  rw [hvals]
  exact bigState_trip idShuffle headChoice (bigState 0 1003) 1000 0 1003 [] 1002
    (by omega) (by simp) (by omega)

/-- C5 (amended): the elimination loop is bounded — any elimination step that
would make the round trace longer than 1000 raises the fatal internal
invariant error instead of looping on — and the ceiling is never tripped for
inputs whose candidate universe has at most 1001 distinct candidates,
because the universe strictly shrinks (or the loop returns) on every
iteration.  (For larger candidate universes the ceiling is reachable, see
the counterexample.) -/
theorem c5_round_ceiling_bound :
    (∀ (sh : Nat → List (List α) → List (List α)) (ch : List α → α)
        (origs ballots : List (List α)) (rounds : List (List (List α)))
        (fuel : Nat),
      totalVotes ballots ≠ 0 → majorityFind ballots = none →
      rounds.length + 1 > 1000 →
      irvLoop sh ch origs (fuel + 1) ballots rounds = .error .infiniteLoop) ∧
    (∀ (sh : Nat → List (List α) → List (List α)) (ch : List α → α)
        (rankings : List (κ × List α)),
      (allCandidates (rankings.map Prod.snd)).length ≤ 1001 →
      calculate_irv_winner sh ch rankings ≠ .error .infiniteLoop) := by
  constructor
  · intro sh ch origs ballots rounds fuel htot hmaj hg
    rw [irvLoop_elim htot hmaj]
    rw [if_pos hg]
  · intro sh ch rankings hsize
    unfold calculate_irv_winner
    by_cases hlen : (rankings.map Prod.snd).length = 0
    · rw [if_pos hlen]
      simp
    · rw [if_neg hlen]
      exact irvLoop_no_ceiling sh ch (rankings.map Prod.snd) 1002
        (rankings.map Prod.snd) [] (by simpa using hsize)

/-- C5 witness: the amended theorem applied to a state whose trace already
holds 1000 rounds (one more elimination raises), and to a one-candidate
election that finishes without ever approaching the ceiling. -/
theorem c5_round_ceiling_bound_witness :
    (irvLoop idShuffle headChoice [] 1 [[0, 1], [1, 0]]
        (List.replicate 1000 ([] : List (List Nat))) = .error .infiniteLoop) ∧
      calculate_irv_winner idShuffle headChoice
        ([(0, [0])] : List (Nat × List Nat)) ≠ .error .infiniteLoop := by
  constructor
  · exact (c5_round_ceiling_bound (α := Nat) (κ := Nat)).1 idShuffle headChoice
      [] [[0, 1], [1, 0]] (List.replicate 1000 []) 0
      (by decide) (by decide) (by rw [List.length_replicate]; omega)
  · exact (c5_round_ceiling_bound (α := Nat) (κ := Nat)).2 idShuffle headChoice
      [(0, [0])] (by decide)

lemma find?_congr {β : Type} {l : List β} {p q : β → Bool}
    (h : ∀ x ∈ l, p x = q x) : l.find? p = l.find? q := by
  induction l with
  | nil => rfl
  | cons a t ih =>
    by_cases hpa : p a = true
    · rw [List.find?_cons_of_pos _ hpa,
        List.find?_cons_of_pos _ ((h a (List.mem_cons_self a t)) ▸ hpa)]
    · rw [List.find?_cons_of_neg _ hpa,
        List.find?_cons_of_neg _ ((h a (List.mem_cons_self a t)) ▸ hpa)]
      exact ih (fun x hx => h x (List.mem_cons_of_mem a hx))

lemma floatHalfUnits_exact {n : Nat} (h : n ≤ 2 ^ 53) :
    floatHalfUnits n = n := by
  by_cases hlt : n < 2 ^ 53
  · unfold floatHalfUnits
    rw [if_pos hlt]
  · have hn : n = 2 ^ 53 := by omega
    subst hn
    decide

lemma pyMajGt_eq {count total : Nat} (h : total ≤ 2 ^ 53) :
    pyMajGt count total = decide (2 * count > total) := by
  unfold pyMajGt
  rw [floatHalfUnits_exact h]

lemma pyMajorityFind_eq_majorityFind {ballots : List (List α)}
    (h : totalVotes ballots ≤ 2 ^ 53) :
    pyMajorityFind ballots = majorityFind ballots := by
  unfold pyMajorityFind majorityFind
  exact find?_congr (fun p _ => pyMajGt_eq h)

lemma irvLoopFloat_succ (sh : Nat → List (List α) → List (List α))
    (ch : List α → α) (origs : List (List α)) (fuel : Nat)
    (ballots : List (List α)) (rounds : List (List (List α))) :
    irvLoopFloat sh ch origs (fuel + 1) ballots rounds =
      if totalVotes ballots = 0 then
        if origs.any List.isEmpty then .error .indexError
        else .ok (some (ch (firstChoices origs)), rounds)
      else
        match pyMajorityFind ballots with
        | some p => .ok (some p.1, rounds)
        | none =>
          let ballots' := eliminateFrom ballots
          let rounds' := rounds ++ [sh rounds.length ballots']
          if rounds'.length > 1000 then .error .infiniteLoop
          else irvLoopFloat sh ch origs fuel ballots' rounds' := rfl

lemma irvLoopFloat_exhaust {sh : Nat → List (List α) → List (List α)}
    {ch : List α → α} {origs ballots : List (List α)} {fuel : Nat}
    {rounds : List (List (List α))} (htot : totalVotes ballots = 0) :
    irvLoopFloat sh ch origs (fuel + 1) ballots rounds =
      if origs.any List.isEmpty then .error .indexError
      else .ok (some (ch (firstChoices origs)), rounds) := by
  rw [irvLoopFloat_succ, if_pos htot]

lemma irvLoopFloat_majority {sh : Nat → List (List α) → List (List α)}
    {ch : List α → α} {origs ballots : List (List α)} {fuel : Nat}
    {rounds : List (List (List α))} {p : α × Nat}
    (htot : totalVotes ballots ≠ 0) (hmaj : pyMajorityFind ballots = some p) :
    irvLoopFloat sh ch origs (fuel + 1) ballots rounds = .ok (some p.1, rounds) := by
  rw [irvLoopFloat_succ, if_neg htot, hmaj]

lemma irvLoopFloat_elim {sh : Nat → List (List α) → List (List α)}
    {ch : List α → α} {origs ballots : List (List α)} {fuel : Nat}
    {rounds : List (List (List α))}
    (htot : totalVotes ballots ≠ 0) (hmaj : pyMajorityFind ballots = none) :
    irvLoopFloat sh ch origs (fuel + 1) ballots rounds =
      if rounds.length + 1 > 1000 then .error .infiniteLoop
      else irvLoopFloat sh ch origs fuel (eliminateFrom ballots)
        (rounds ++ [sh rounds.length (eliminateFrom ballots)]) := by
  rw [irvLoopFloat_succ, if_neg htot, hmaj]
  simp

lemma calculate_irv_winner_float_of_ne_empty
    (sh : Nat → List (List α) → List (List α)) (ch : List α → α)
    (rankings : List (κ × List α)) (h : rankings ≠ []) :
    calculate_irv_winner_float sh ch rankings =
      irvLoopFloat sh ch (rankings.map Prod.snd) 1002 (rankings.map Prod.snd) [] := by
  unfold calculate_irv_winner_float
  rw [if_neg (by
    simp only [List.length_map, List.length_eq_zero]
    exact h)]

lemma foldl_insertNew_replicate_fresh {m : Nat} {c : Nat} {acc : List Nat}
    (hm : 1 ≤ m) (hc : c ∉ acc) :
    (List.replicate m ([c] : List Nat)).foldl
      (fun acc row => row.foldl insertNew acc) acc = acc ++ [c] := by
  obtain ⟨k, rfl⟩ : ∃ k, m = k + 1 := ⟨m - 1, by omega⟩
  simp only [List.replicate_succ, List.foldl_cons, List.foldl_nil]
  rw [insertNew, if_neg hc]
  exact foldl_insertNew_replicate_single (by simp)

lemma allCandidates_two_blocks {a b : Nat} {x y : Nat} (ha : 1 ≤ a)
    (hb : 1 ≤ b) (hxy : x ≠ y) :
    allCandidates (List.replicate a [x] ++ List.replicate b [y]) = [x, y] := by
  unfold allCandidates
  rw [List.foldl_append]
  rw [foldl_insertNew_replicate_fresh ha (by simp)]
  rw [foldl_insertNew_replicate_fresh hb (by simp [Ne.symm hxy])]
  rfl

lemma allCandidates_block_empties {a b : Nat} {x : Nat} (ha : 1 ≤ a) :
    allCandidates (List.replicate a [x] ++ List.replicate b []) = [x] := by
  unfold allCandidates
  rw [List.foldl_append]
  rw [foldl_insertNew_replicate_fresh ha (by simp)]
  rw [foldl_insertNew_replicate_empty]
  rfl

lemma countFirst_append (b1 b2 : List (List α)) (c : α) :
    countFirst (b1 ++ b2) c = countFirst b1 c + countFirst b2 c := by
  unfold countFirst
  rw [List.countP_append]

lemma countFirst_replicate (m : Nat) (bal : List α) (c : α) :
    countFirst (List.replicate m bal) c =
      if bal.head? = some c then m else 0 := by
  unfold countFirst
  rw [countP_replicate]
  simp

lemma nearMaj_universe : allCandidates nearMajBallots = [0, 1] := by
  unfold nearMajBallots
  exact allCandidates_two_blocks (by decide) (by decide) (by decide)

lemma nearMaj_countFirst_zero : countFirst nearMajBallots 0 = 2 ^ 52 + 2 := by
  unfold nearMajBallots
  rw [countFirst_append, countFirst_replicate, countFirst_replicate]
  simp

lemma nearMaj_countFirst_one : countFirst nearMajBallots 1 = 2 ^ 52 + 1 := by
  unfold nearMajBallots
  rw [countFirst_append, countFirst_replicate, countFirst_replicate]
  simp

lemma nearMaj_counts :
    countVotes nearMajBallots = [(0, 2 ^ 52 + 2), (1, 2 ^ 52 + 1)] := by
  rw [countVotes_eq, nearMaj_universe]
  rw [List.map_cons, List.map_cons, List.map_nil]
  rw [nearMaj_countFirst_zero, nearMaj_countFirst_one]

lemma nearMaj_total : totalVotes nearMajBallots = 2 ^ 53 + 3 := by
  rw [totalVotes_eq, nearMaj_universe]
  rw [List.map_cons, List.map_cons, List.map_nil]
  rw [nearMaj_countFirst_zero, nearMaj_countFirst_one]
  decide

lemma nearMaj_no_float_majority : pyMajorityFind nearMajBallots = none := by
  unfold pyMajorityFind
  rw [nearMaj_counts, nearMaj_total]
  decide

lemma nearMaj_minVotes : minVotes nearMajBallots = 2 ^ 52 + 1 := by
  unfold minVotes
  rw [nearMaj_counts]
  decide

lemma nearMaj_toEliminate : toEliminate nearMajBallots = [1] := by
  unfold toEliminate
  rw [nearMaj_minVotes, nearMaj_counts]
  decide

lemma nearMaj_eliminate :
    eliminateFrom nearMajBallots =
      List.replicate (2 ^ 52 + 2) [0] ++ List.replicate (2 ^ 52 + 1) [] := by
  unfold eliminateFrom
  rw [nearMaj_toEliminate]
  show nearMajBallots.map _ = _
  unfold nearMajBallots
  rw [List.map_append, List.map_replicate, List.map_replicate]
  have h0 : ([0] : List Nat).filter (fun c => decide (c ∉ ([1] : List Nat))) = [0] := by
    decide
  have h1 : ([1] : List Nat).filter (fun c => decide (c ∉ ([1] : List Nat))) = [] := by
    decide
  rw [h0, h1]

lemma nearMajElim_universe :
    allCandidates
      (List.replicate (2 ^ 52 + 2) ([0] : List Nat) ++
        List.replicate (2 ^ 52 + 1) []) = [0] :=
  allCandidates_block_empties (by decide)

lemma nearMajElim_countFirst :
    countFirst
      (List.replicate (2 ^ 52 + 2) ([0] : List Nat) ++
        List.replicate (2 ^ 52 + 1) []) 0 = 2 ^ 52 + 2 := by
  rw [countFirst_append, countFirst_replicate, countFirst_replicate]
  simp

lemma nearMajElim_counts :
    countVotes
      (List.replicate (2 ^ 52 + 2) ([0] : List Nat) ++
        List.replicate (2 ^ 52 + 1) []) = [(0, 2 ^ 52 + 2)] := by
  rw [countVotes_eq, nearMajElim_universe]
  rw [List.map_cons, List.map_nil, nearMajElim_countFirst]

lemma nearMajElim_total :
    totalVotes
      (List.replicate (2 ^ 52 + 2) ([0] : List Nat) ++
        List.replicate (2 ^ 52 + 1) []) = 2 ^ 52 + 2 := by
  rw [totalVotes_eq, nearMajElim_universe]
  rw [List.map_cons, List.map_nil, nearMajElim_countFirst]
  decide

lemma nearMajElim_float_majority :
    pyMajorityFind
      (List.replicate (2 ^ 52 + 2) ([0] : List Nat) ++
        List.replicate (2 ^ 52 + 1) []) = some (0, 2 ^ 52 + 2) := by
  unfold pyMajorityFind
  rw [nearMajElim_counts, nearMajElim_total]
  decide

lemma halfTie_universe : allCandidates halfTieBallots = [0, 1] := by
  unfold halfTieBallots
  exact allCandidates_two_blocks (by decide) (by decide) (by decide)

lemma halfTie_countFirst_zero : countFirst halfTieBallots 0 = 2 ^ 53 + 1 := by
  unfold halfTieBallots
  rw [countFirst_append, countFirst_replicate, countFirst_replicate]
  simp

lemma halfTie_countFirst_one : countFirst halfTieBallots 1 = 2 ^ 53 + 1 := by
  unfold halfTieBallots
  rw [countFirst_append, countFirst_replicate, countFirst_replicate]
  simp

lemma halfTie_counts :
    countVotes halfTieBallots = [(0, 2 ^ 53 + 1), (1, 2 ^ 53 + 1)] := by
  rw [countVotes_eq, halfTie_universe]
  rw [List.map_cons, List.map_cons, List.map_nil]
  rw [halfTie_countFirst_zero, halfTie_countFirst_one]

lemma halfTie_total : totalVotes halfTieBallots = 2 ^ 54 + 2 := by
  rw [totalVotes_eq, halfTie_universe]
  rw [List.map_cons, List.map_cons, List.map_nil]
  rw [halfTie_countFirst_zero, halfTie_countFirst_one]
  decide

lemma halfTie_float_majority :
    pyMajorityFind halfTieBallots = some (0, 2 ^ 53 + 1) := by
  unfold pyMajorityFind
  rw [halfTie_counts, halfTie_total]
  decide

lemma enum_ne_nil_of_length_pos {β : Type} {l : List β}
    (h : 0 < l.length) : l.enum ≠ [] := by
  intro hnil
  have := congrArg List.length hnil
  rw [List.enum_length, List.length_nil] at this
  omega

lemma nearMaj_length_pos : 0 < nearMajBallots.length := by
  unfold nearMajBallots
  rw [List.length_append, List.length_replicate, List.length_replicate]
  decide

lemma halfTie_length_pos : 0 < halfTieBallots.length := by
  unfold halfTieBallots
  rw [List.length_append, List.length_replicate, List.length_replicate]
  decide

lemma irvLoopFloat_majority_w {sh : Nat → List (List α) → List (List α)}
    {ch : List α → α} {origs ballots : List (List α)} {fuel : Nat}
    {rounds : List (List (List α))} {w : α}
    (hbound : totalVotes ballots ≤ 2 ^ 53)
    (h : 2 * countFirst ballots w > totalVotes ballots) :
    irvLoopFloat sh ch origs (fuel + 1) ballots rounds = .ok (some w, rounds) := by
  have htot : totalVotes ballots ≠ 0 := by
    intro h0
    have := countFirst_le_total ballots w
    omega
  have hmajF : pyMajorityFind ballots = some (w, countFirst ballots w) := by
    rw [pyMajorityFind_eq_majorityFind hbound]
    exact majorityFind_of_majority h
  exact irvLoopFloat_majority htot hmajF

/-- C2 counterexample: the claim asserts that an exact-rational strict
majority is returned immediately with the rounds accumulated so far (a
first-count majority giving an empty trace).  On `nearMajBallots`, candidate
0 holds `2 ^ 52 + 2` of `2 ^ 53 + 3` first choices — a strict majority under
exact comparison — but the source's float test `count > total_votes / 2`
computes the threshold `4503599627370498.0` (the half rounds up to the
nearest even mantissa) and fails, so the program eliminates candidate 1
first and returns candidate 0 only in the second iteration, with a
one-round trace instead of an empty one. -/
theorem c2_float_majority_missed :
    calculate_irv_winner_float idShuffle headChoice nearMajBallots.enum =
        .ok (some 0,
          [List.replicate (2 ^ 52 + 2) [0] ++ List.replicate (2 ^ 52 + 1) []]) ∧
      2 * countFirst nearMajBallots 0 > totalVotes nearMajBallots := by
  constructor
  · rw [calculate_irv_winner_float_of_ne_empty idShuffle headChoice
      nearMajBallots.enum (enum_ne_nil_of_length_pos nearMaj_length_pos)]
    rw [List.enum_map_snd]
    rw [show (1002 : Nat) = 1001 + 1 from rfl]
    rw [irvLoopFloat_elim (by rw [nearMaj_total]; decide) nearMaj_no_float_majority]
    rw [if_neg (by decide)]
    rw [nearMaj_eliminate]
    rw [show (1001 : Nat) = 1000 + 1 from rfl]
    rw [irvLoopFloat_majority (by rw [nearMajElim_total]; decide)
      nearMajElim_float_majority]
    rfl
  · rw [nearMaj_countFirst_zero, nearMaj_total]
    decide

/-- C2 (amended): in every iteration of the loop, if some candidate's
first-choice count is strictly greater than `total_votes / 2` under exact
rational comparison and `total_votes` is at most `2 ^ 53` — the range on
which the source's float comparison agrees with the exact one — then that
candidate is returned immediately together with exactly the rounds
accumulated so far; in particular such a majority on the very first count
makes `calculate_irv_winner` return with an empty round trace. -/
theorem c2_strict_majority_bounded :
    (∀ (sh : Nat → List (List α) → List (List α)) (ch : List α → α)
        (origs ballots : List (List α)) (rounds : List (List (List α)))
        (fuel : Nat) (w : α),
      totalVotes ballots ≤ 2 ^ 53 →
      2 * countFirst ballots w > totalVotes ballots →
      irvLoopFloat sh ch origs (fuel + 1) ballots rounds = .ok (some w, rounds)) ∧
    (∀ (sh : Nat → List (List α) → List (List α)) (ch : List α → α)
        (rankings : List (κ × List α)) (w : α),
      totalVotes (rankings.map Prod.snd) ≤ 2 ^ 53 →
      2 * countFirst (rankings.map Prod.snd) w >
          totalVotes (rankings.map Prod.snd) →
      calculate_irv_winner_float sh ch rankings = .ok (some w, [])) := by
  constructor
  · intro sh ch origs ballots rounds fuel w hbound h
    exact irvLoopFloat_majority_w hbound h
  · intro sh ch rankings w hbound h
    unfold calculate_irv_winner_float
    have hne : ¬ ((rankings.map Prod.snd).length = 0) := by
      intro h0
      rw [List.length_eq_zero] at h0
      rw [h0] at h
      have : countFirst ([] : List (List α)) w = 0 := rfl
      rw [this, totalVotes_nil] at h
      omega
    rw [if_neg hne]
    rw [show (1002 : Nat) = 1001 + 1 from rfl]
    exact irvLoopFloat_majority_w hbound h

/-- C2 witness: a 2-1 election where candidate 0 holds a strict first-count
majority (4 > 3 exactly, and the total 3 is far below `2 ^ 53`), applied to
both conjuncts of the theorem at concrete inputs. -/
theorem c2_strict_majority_bounded_witness :
    irvLoopFloat idShuffle headChoice [] 5 [[0, 1], [0], [1]] [[[9]]] =
        .ok (some 0, [[[9]]]) ∧
      calculate_irv_winner_float idShuffle headChoice
          [(10, [0, 1]), (11, [0]), (12, [1])] = .ok (some 0, []) := by
  constructor
  · exact (c2_strict_majority_bounded (α := Nat) (κ := Nat)).1 idShuffle headChoice
      [] [[0, 1], [0], [1]] [[[9]]] 4 0 (by decide) (by decide)
  · exact (c2_strict_majority_bounded (α := Nat) (κ := Nat)).2 idShuffle headChoice
      [(10, [0, 1]), (11, [0]), (12, [1])] 0 (by decide) (by decide)

/-- C10 counterexample: the claim asserts a candidate holding exactly half
of the first-choice votes never passes the strict-majority test, so an
all-tied election is resolved by total elimination and the exhaustion
tie-break.  On `halfTieBallots`, each candidate holds exactly half
(`2 ^ 53 + 1` of `2 ^ 54 + 2`), yet the source's float test passes: the
threshold `total_votes / 2` rounds down to `9007199254740992.0`, so the
program returns the first tied candidate as a majority winner with an empty
trace — no elimination and no exhaustion tie-break happen at all. -/
theorem c10_half_vote_passes_float_majority :
    calculate_irv_winner_float idShuffle headChoice halfTieBallots.enum =
        .ok (some 0, []) ∧
      2 * countFirst halfTieBallots 0 = totalVotes halfTieBallots := by
  constructor
  · rw [calculate_irv_winner_float_of_ne_empty idShuffle headChoice
      halfTieBallots.enum (enum_ne_nil_of_length_pos halfTie_length_pos)]
    rw [List.enum_map_snd]
    rw [show (1002 : Nat) = 1001 + 1 from rfl]
    rw [irvLoopFloat_majority (by rw [halfTie_total]; decide) halfTie_float_majority]
  · rw [halfTie_countFirst_zero, halfTie_total]
    decide

/-- C10 (amended): provided `total_votes` is at most `2 ^ 53` — the range on
which the source's float comparison agrees with the exact one — a candidate
holding exactly half of the first-choice votes fails the strict-majority
test; and when every candidate of the current universe is tied at the same
positive count (with at least two candidates), one loop iteration eliminates
every candidate simultaneously, every ballot exhausts, and the next
iteration resolves the election by the random exhaustion tie-break over the
original first choices rather than by plurality or any runoff. -/
theorem c10_half_votes_and_total_tie_bounded :
    (∀ (ballots : List (List α)) (w : α),
      totalVotes ballots ≤ 2 ^ 53 →
      2 * countFirst ballots w = totalVotes ballots →
      pyMajorityFind ballots = none) ∧
    (∀ (sh : Nat → List (List α) → List (List α)) (ch : List α → α)
        (origs ballots : List (List α)) (rounds : List (List (List α)))
        (fuel : Nat) (v : Nat),
      (∀ l : List α, l ≠ [] → ch l ∈ l) →
      origs ≠ [] → (∀ b ∈ origs, b ≠ []) →
      (∀ c ∈ allCandidates ballots, countFirst ballots c = v) →
      2 ≤ (allCandidates ballots).length → 0 < v →
      rounds.length ≤ 999 →
      totalVotes ballots ≤ 2 ^ 53 →
      irvLoopFloat sh ch origs (fuel + 2) ballots rounds =
        .ok (some (ch (firstChoices origs)),
          rounds ++ [sh rounds.length (ballots.map (fun _ => []))])) := by
  constructor
  · intro ballots w hbound h
    rw [pyMajorityFind_eq_majorityFind hbound]
    exact half_not_majority h
  · intro sh ch origs ballots rounds fuel v hch hor hne hv hU2 hvpos hround hbound
    obtain ⟨c1, c2, t, hU⟩ : ∃ c1 c2 t, allCandidates ballots = c1 :: c2 :: t := by
      cases hU : allCandidates ballots with
      | nil => rw [hU] at hU2; simp at hU2
      | cons c1 t1 =>
        cases t1 with
        | nil => rw [hU] at hU2; simp at hU2
        | cons c2 t2 => exact ⟨c1, c2, t2, rfl⟩
    have hc1 : c1 ∈ allCandidates ballots := by rw [hU]; simp
    have hc2 : c2 ∈ allCandidates ballots := by rw [hU]; simp
    have htot2v : 2 * v ≤ totalVotes ballots := by
      rw [totalVotes_eq, hU]
      simp only [List.map_cons, List.sum_cons]
      rw [hv c1 hc1, hv c2 hc2]
      omega
    have htot : totalVotes ballots ≠ 0 := by omega
    have hmaj : majorityFind ballots = none := by
      rw [majorityFind_eq_none_iff]
      intro c hc
      rw [hv c hc]
      omega
    have hmajF : pyMajorityFind ballots = none := by
      rw [pyMajorityFind_eq_majorityFind hbound]
      exact hmaj
    rw [irvLoopFloat_elim htot hmajF]
    rw [if_neg (by omega)]
    rw [all_tied_eliminates_all hv]
    rw [irvLoopFloat_exhaust (totalVotes_all_empty ballots)]
    have hany : origs.any List.isEmpty = false := by
      rw [List.any_eq_false]
      intro b hb
      simpa [List.isEmpty_iff] using hne b hb
    rw [hany]
    simp

/-- C10 witness: the two conjuncts at the concrete two-candidate election
`[[0, 1], [1, 0]]`, where each candidate holds exactly half of the votes and
the total is far below `2 ^ 53`. -/
theorem c10_half_votes_and_total_tie_bounded_witness :
    (pyMajorityFind [[0, 1], [1, 0]] = none) ∧
    (irvLoopFloat idShuffle headChoice [[0, 1], [1, 0]] 2 [[0, 1], [1, 0]] [] =
      .ok (some (headChoice (firstChoices [[0, 1], [1, 0]])),
        [] ++ [idShuffle ([] : List (List (List Nat))).length
          ([[0, 1], [1, 0]].map (fun _ => []))])) := by
  constructor
  · exact (c10_half_votes_and_total_tie_bounded (α := Nat)).1 [[0, 1], [1, 0]] 0
      (by decide) (by decide)
  · exact (c10_half_votes_and_total_tie_bounded (α := Nat)).2 idShuffle headChoice
      [[0, 1], [1, 0]] [[0, 1], [1, 0]] [] 0 1
      (fun l hl => headChoice_mem l hl)
      (by simp) (by decide) (by decide) (by decide) (by decide) (by decide)
      (by decide)

end RankedChoice
